import Mathlib

/-!
Verification development for the review-analyzer ingestion-and-analysis
pipeline.  The TypeScript sources are shallowly embedded: JavaScript strings
are Lean `String`s (UTF-16 lengths are modelled explicitly where the code
depends on them), JavaScript numbers are modelled by `JsNum`
(finite rational / infinity / NaN), fallible steps return `Except`/`Option`,
and the LLM, the HTTP layer and the database are adversarial oracles passed
as explicit parameters.
-/

set_option maxHeartbeats 1600000

/- Rational arithmetic is sealed `irreducible` upstream; re-open it locally
so that `decide` can evaluate the embedded functions on concrete inputs
(this only affects elaboration-time unfolding, not soundness). -/
set_option allowUnsafeReducibility true
attribute [local semireducible] Rat.add Rat.mul Rat.inv Rat.sub Rat.ofScientific

namespace ReviewAnalyzer

/-! ### JavaScript string primitives -/

/-- Model of `String.prototype.toLowerCase` (exact on ASCII, which is all the
stoplists and category names use; multi-character Unicode lowerings are not
modelled). -/
def jsToLower (s : String) : String := String.mk (s.toList.map Char.toLower)

/-- Model of the regex class `\s` (the ASCII part of JavaScript whitespace). -/
def jsIsWs (c : Char) : Bool :=
  c = ' ' || c = '\t' || c = '\n' || c = '\r' || c = '\x0b' || c = '\x0c'

/-- JavaScript `String.prototype.length` counts UTF-16 code units: astral
code points (≥ 0x10000) count twice. -/
def jsStrLen (s : String) : Nat :=
  (s.toList.map (fun c => if c.toNat ≥ 0x10000 then 2 else 1)).sum

/-- Decides whether `pre` is a prefix of `hay` (component of
`String.prototype.includes`). -/
def listStarts [DecidableEq α] : List α → List α → Bool
  | _, [] => true
  | [], _ :: _ => false
  | a :: t, b :: u => a = b && listStarts t u

/-- Decides whether `needle` occurs contiguously in `hay`, by scanning. -/
def listIncludes [DecidableEq α] (needle : List α) : List α → Bool
  | [] => needle.isEmpty
  | a :: t => listStarts (a :: t) needle || listIncludes needle t

/-- Model of `hay.includes(sub)` for JavaScript strings. -/
def jsIncludes (hay sub : String) : Bool := listIncludes sub.toList hay.toList

/-- Helper for `jsSplitWs`, a two-state scanner: `some cur` while inside a
token whose characters (reversed) are `cur`, `none` while inside a
whitespace run. -/
def splitWsGo : Option (List Char) → List Char → List String
  | some cur, [] => [String.mk cur.reverse]
  | none, [] => [""]
  | some cur, c :: t =>
    if jsIsWs c then String.mk cur.reverse :: splitWsGo none t
    else splitWsGo (some (c :: cur)) t
  | none, c :: t =>
    if jsIsWs c then splitWsGo none t
    else splitWsGo (some [c]) t

/-- Model of `s.split(/\s+/)`: splits on maximal whitespace runs; a leading
(resp. trailing) run contributes a leading (resp. trailing) empty token, and
the result is never the empty list. -/
def jsSplitWs (s : String) : List String := splitWsGo (some []) s.toList

/-- Model of `s.split(sep)` for a single separator character. -/
def splitCharAux (sep : Char) : List Char → List Char → List String
  | cur, [] => [String.mk cur.reverse]
  | cur, c :: t =>
    if c = sep then String.mk cur.reverse :: splitCharAux sep [] t
    else splitCharAux sep (c :: cur) t

/-- Model of `s.split(c)` (single-character separator). -/
def jsSplitChar (sep : Char) (s : String) : List String :=
  splitCharAux sep [] s.toList

/-! ### hybridScraper.ts: areSimilarReviews -/

/-- Embeds `areSimilarReviews` (src/backend/src/services/hybridScraper.ts,
lines 86-104).  The numeric comparison `commonWords.length >
Math.min(...) * 0.7` is carried out in ℚ; for the integer counts involved
the rational and double-precision verdicts coincide. -/
def areSimilarReviews (text1 text2 : String) : Bool :=
  if text1 = "" || text2 = "" then false
  else
    let shorter := if jsStrLen text1 < jsStrLen text2 then text1 else text2
    let longer := if jsStrLen text1 ≥ jsStrLen text2 then text1 else text2
    if jsIncludes (jsToLower longer) (jsToLower shorter) then true
    else
      let words1 := jsSplitWs (jsToLower text1)
      let words2 := jsSplitWs (jsToLower text2)
      let commonWords := words1.filter (fun w => words2.contains w)
      decide ((commonWords.length : ℚ) >
        (min words1.length words2.length : ℚ) * (7 / 10))

/-- Modelled from the spec: the similarity rule as worded in §4.2 — texts are
similar iff (a) the shorter (case-insensitively) is a substring of the
longer, or (b) the count of shared whitespace-separated tokens (a token is
shared when it occurs in both texts) divided by the smaller token count
exceeds 0.7; and empty texts are never similar.  Used only to compare the
code's rule against the spec's words. -/
def specSimilarRule (text1 text2 : String) : Bool :=
  if text1 = "" || text2 = "" then false
  else
    let shorter := if jsStrLen text1 < jsStrLen text2 then text1 else text2
    let longer := if jsStrLen text1 ≥ jsStrLen text2 then text1 else text2
    let words1 := jsSplitWs (jsToLower text1)
    let words2 := jsSplitWs (jsToLower text2)
    let shared := (words1.dedup.filter (fun w => words2.contains w)).length
    jsIncludes (jsToLower longer) (jsToLower shorter) ||
      decide ((shared : ℚ) > (min words1.length words2.length : ℚ) * (7 / 10))

/-! ### JavaScript numbers

JavaScript numbers are modelled as finite rationals plus the two infinities
and NaN.  All integer/decimal arithmetic the embedded code performs is exact
in double precision or (for the single `* 0.7` comparison) agrees with the
exact rational verdict on the integer operands that can occur, so ℚ is a
faithful carrier. -/

inductive JsNum where
  | fin (q : ℚ)
  | inf (pos : Bool)
  | nan
deriving DecidableEq

/-- JavaScript truthiness of a number: `0`, `-0` and `NaN` are falsy. -/
def JsNum.truthy : JsNum → Bool
  | .fin q => q ≠ 0
  | .inf _ => true
  | .nan => false

/-- Model of `Math.min` on two arguments (NaN-propagating). -/
def jsMinNum : JsNum → JsNum → JsNum
  | .nan, _ => .nan
  | _, .nan => .nan
  | .fin a, .fin b => .fin (min a b)
  | .inf false, _ => .inf false
  | _, .inf false => .inf false
  | .inf true, b => b
  | a, .inf true => a

/-- Model of `Math.max` on two arguments (NaN-propagating). -/
def jsMaxNum : JsNum → JsNum → JsNum
  | .nan, _ => .nan
  | _, .nan => .nan
  | .fin a, .fin b => .fin (max a b)
  | .inf true, _ => .inf true
  | _, .inf true => .inf true
  | .inf false, b => b
  | a, .inf false => a

/-- Model of `x || d` for a number `x` and default `d`. -/
def jsOrNum (n : JsNum) (d : ℚ) : JsNum := if n.truthy then n else .fin d

/-- Numeric value of a digit character. -/
def digitVal (c : Char) : Nat := c.toNat - 48

/-- Value of a digit string read in base 10. -/
def digitsToNat (ds : List Char) : Nat :=
  ds.foldl (fun n c => 10 * n + digitVal c) 0

/-- Parses an unsigned decimal significand (`digits`, `digits.digits`,
`.digits` or `digits.`), returning its value and the unconsumed input;
fails when no digit is present. -/
def parseUnsigned (cs : List Char) : Option (ℚ × List Char) :=
  let intd := cs.takeWhile Char.isDigit
  let r1 := cs.dropWhile Char.isDigit
  match r1 with
  | '.' :: r2 =>
    let fracd := r2.takeWhile Char.isDigit
    let r3 := r2.dropWhile Char.isDigit
    if intd.isEmpty && fracd.isEmpty then none
    else some ((digitsToNat intd : ℚ) +
      (digitsToNat fracd : ℚ) / ((10 : ℚ) ^ fracd.length), r3)
  | _ =>
    if intd.isEmpty then none else some ((digitsToNat intd : ℚ), r1)

/-- Applies a trailing exponent part (`e`/`E`, optional sign, digits) to a
parsed significand; a malformed exponent is ignored, as `parseFloat` keeps
the longest valid numeric prefix. -/
def applyExponent (v : ℚ) (cs : List Char) : ℚ :=
  match cs with
  | 'e' :: r | 'E' :: r =>
    let (eneg, r1) := match r with
      | '-' :: r2 => (true, r2)
      | '+' :: r2 => (false, r2)
      | r2 => (false, r2)
    let ed := r1.takeWhile Char.isDigit
    if ed.isEmpty then v
    else if eneg then v / ((10 : ℚ) ^ digitsToNat ed)
    else v * ((10 : ℚ) ^ digitsToNat ed)
  | _ => v

/-- Model of the global `parseFloat`: skips leading whitespace, reads an
optional sign, then `Infinity` or the longest decimal-literal prefix;
returns NaN when no numeric prefix exists. -/
def jsParseFloat (s : String) : JsNum :=
  let cs := s.toList.dropWhile jsIsWs
  let (neg, cs1) := match cs with
    | '-' :: t => (true, t)
    | '+' :: t => (false, t)
    | t => (false, t)
  if listStarts cs1 ("Infinity".toList) then .inf (!neg)
  else
    match parseUnsigned cs1 with
    | none => .nan
    | some (v, rest) =>
      let v1 := applyExponent v rest
      .fin (if neg then -v1 else v1)

/-! ### JavaScript values (the dynamic `any` that `JSON.parse` and the
fallback parser produce) -/

inductive JsValue where
  | vNull
  | vUndefined
  | vBool (b : Bool)
  | vNum (n : JsNum)
  | vStr (s : String)
  | vArr (elems : List JsValue)
  | vObj (fields : List (String × JsValue))

/-- Property access `v[key]`: throws (models a `TypeError`) on `null` and
`undefined`, yields `undefined` for absent fields and for primitives. -/
def getField (v : JsValue) (key : String) : Except Unit JsValue :=
  match v with
  | .vNull => .error ()
  | .vUndefined => .error ()
  | .vObj fields => .ok ((fields.lookup key).getD .vUndefined)
  | _ => .ok .vUndefined

/-- Model of `parseFloat(v)` for a dynamic value.  JavaScript stringifies
the argument first; numbers round-trip, strings are parsed, and the other
shapes (booleans, `null`, `undefined`, objects, arrays) are modelled as NaN.
(A one-element array of a numeral would stringify to that numeral in
JavaScript; the difference is immaterial here because every numeric field
below is defaulted on falsiness and clamped into its range afterwards.) -/
def parseFloatJs : JsValue → JsNum
  | .vNum n => n
  | .vStr s => jsParseFloat s
  | _ => .nan

/-- Checks `['positive','negative','neutral'].includes(v)` (strict-equality
membership, hence false for every non-string). -/
def isValidCategory : JsValue → Bool
  | .vStr s => s = "positive" || s = "negative" || s = "neutral"
  | _ => false

/-- The string elements of `v` (filtered, first five) when `v` is an array,
otherwise the supplied default — embeds the
`Array.isArray(v) ? v.filter(typeof string).slice(0, 5) : default` idiom. -/
def stringArrayOr (v : JsValue) (dflt : List String) : List String :=
  match v with
  | .vArr elems =>
    (elems.filterMap fun e =>
      match e with
      | .vStr s => some s
      | _ => none).take 5
  | _ => dflt

/-- Truncation `s.substring(0, n)` (modelled on code points; the embedded
code only truncates human-readable summaries with it). -/
def jsSubstringTo (s : String) (n : Nat) : String := String.mk (s.toList.take n)

/-! ### openaiService.ts: data model and fallback analysis -/

/-- Embeds the `ReviewAnalysisResult` interface.  `primary_category` is kept
as a plain string (the TypeScript union annotation is not enforced at
runtime; the sanitizer establishes it dynamically), and the numeric fields
carry full JavaScript numbers so that a failure to clamp would be
observable. -/
structure ReviewAnalysisResult where
  primary_category : String
  primary_confidence : JsNum
  secondary_categories : List String
  themes : List String
  sentiment_score : JsNum
  key_phrases : List String
  summary : String
deriving DecidableEq

/-- Embeds `inferCategoryFromRating` (openaiService.ts lines 280-285);
`!rating` is true for an absent rating and for rating `0`. -/
def inferCategoryFromRating (rating : Option ℚ) : String :=
  match rating with
  | none => "neutral"
  | some r =>
    if r = 0 then "neutral"
    else if r ≥ 4 then "positive"
    else if r ≤ 2 then "negative"
    else "neutral"

/-- Embeds `createFallbackAnalysis` (openaiService.ts lines 264-277).  Note
that the rating-derived sentiment `(rating - 3) / 2` is not clamped. -/
def createFallbackAnalysis (reviewText : String) (rating : Option ℚ) :
    ReviewAnalysisResult :=
  let category := inferCategoryFromRating rating
  let sentimentScore : ℚ :=
    match rating with
    | none => 0
    | some r => if r = 0 then 0 else (r - 3) / 2
  { primary_category := category
    primary_confidence := .fin (3 / 5)
    secondary_categories := ["general"]
    themes := ["customer experience"]
    sentiment_score := .fin sentimentScore
    key_phrases := [String.intercalate (" ") ((jsSplitChar ' ' reviewText).take 3)]
    summary := "Customer review expressing " ++ category ++
      " sentiment about the service" }

/-- The category pick of the sanitizer: keep the parsed value when it is
one of the three valid category strings, otherwise infer from the
rating. -/
def pickCategory (v : JsValue) (rating : Option ℚ) : String :=
  match v with
  | .vStr s =>
    if s = "positive" || s = "negative" || s = "neutral" then s
    else inferCategoryFromRating rating
  | _ => inferCategoryFromRating rating

/-- The confidence sanitization: `parseFloat(v) || 0.5` clamped into
`[0, 1]` by `Math.max(0, Math.min(1, ·))`. -/
def clampConfidence (v : JsValue) : JsNum :=
  jsMaxNum (.fin 0) (jsMinNum (.fin 1) (jsOrNum (parseFloatJs v) (1 / 2)))

/-- The sentiment sanitization: `parseFloat(v) || 0` clamped into
`[-1, 1]`. -/
def clampSentiment (v : JsValue) : JsNum :=
  jsMaxNum (.fin (-1)) (jsMinNum (.fin 1) (jsOrNum (parseFloatJs v) 0))

/-- The synthesized summary `Review about ${themes[0] || 'service'} with
${primary_category} sentiment`. -/
def defaultSummary (themes : List String) (category : String) : String :=
  let t0 := match themes.head? with
    | some t => if t = "" then "service" else t
    | none => "service"
  s!"Review about {t0} with {category} sentiment"

/-- The summary sanitization: a non-empty string is truncated to 200
units, anything else is replaced by the synthesized default. -/
def pickSummary (v : JsValue) (themes : List String) (category : String) : String :=
  match v with
  | .vStr s => if s ≠ "" then jsSubstringTo s 200 else defaultSummary themes category
  | _ => defaultSummary themes category

/-- The body of `validateAndSanitizeResult`'s `try` block (openaiService.ts
lines 213-261); the only way it can throw is the property access on a
`null`/`undefined` parse result. -/
def validateInner (result : JsValue) (rating : Option ℚ) :
    Except Unit ReviewAnalysisResult := do
  let pcField ← getField result ("primary_category")
  let primary_category := pickCategory pcField rating
  let cField ← getField result ("primary_confidence")
  let primary_confidence := clampConfidence cField
  let sField ← getField result ("sentiment_score")
  let sentiment_score := clampSentiment sField
  let scField ← getField result ("secondary_categories")
  let secondary_categories := stringArrayOr scField ["general"]
  let tField ← getField result ("themes")
  let themes := stringArrayOr tField ["general feedback"]
  let kField ← getField result ("key_phrases")
  let key_phrases := stringArrayOr kField ["review"]
  let sumField ← getField result ("summary")
  let summary := pickSummary sumField themes primary_category
  pure { primary_category, primary_confidence, secondary_categories, themes,
         sentiment_score, key_phrases, summary }

/-- Embeds `validateAndSanitizeResult`: the `catch` turns any throw inside
the validation body into the deterministic fallback analysis. -/
def validateAndSanitizeResult (result : JsValue) (reviewText : String)
    (rating : Option ℚ) : ReviewAnalysisResult :=
  match validateInner result rating with
  | .ok r => r
  | .error _ => createFallbackAnalysis reviewText rating

/-! ### openaiService.ts: cleanJsonResponse -/

/-- Global replacement of the fence regex `/```json\s*|\s*```/` by the empty
string (first replacement in `cleanJsonResponse`, openaiService.ts line
161): at each position the first alternative (literal ` ```json ` plus
trailing whitespace) is tried before the second (a whitespace run followed
by ` ``` `); on no match the scanner advances one character. -/
def removeFences : List Char → List Char
  | [] => []
  | c :: t =>
    if listStarts (c :: t) ("```json".toList) then
      removeFences ((t.drop 6).dropWhile jsIsWs)
    else if listStarts (c :: t) ("```".toList) then
      removeFences (t.drop 2)
    else if jsIsWs c then
      (if listStarts (t.dropWhile jsIsWs) ("```".toList) then
        removeFences ((t.dropWhile jsIsWs).drop 3)
      else c :: removeFences t)
    else c :: removeFences t
termination_by l => l.length
decreasing_by
  · have h1 : ((t.drop 6).dropWhile jsIsWs).length ≤ (t.drop 6).length :=
      (List.dropWhile_suffix jsIsWs).sublist.length_le
    simp only [List.length_drop] at h1
    simp only [List.length_cons]
    omega
  · simp only [List.length_drop, List.length_cons]; omega
  · have h1 : (t.dropWhile jsIsWs).length ≤ t.length :=
      (List.dropWhile_suffix jsIsWs).sublist.length_le
    simp only [List.length_drop, List.length_cons]
    omega
  · simp
  · simp

/-- Drops everything before the first `{` when one occurs at a positive
index (`indexOf`/`substring` step of `cleanJsonResponse`). -/
def dropBeforeBrace (cs : List Char) : List Char :=
  match cs.findIdx? (· = '\x7b') with
  | some i => if i > 0 then cs.drop i else cs
  | none => cs

/-- Truncates after the last `}` when characters follow it
(`lastIndexOf`/`substring` step of `cleanJsonResponse`). -/
def truncAfterBrace (cs : List Char) : List Char :=
  match cs.reverse.findIdx? (· = '\x7d') with
  | some j =>
    let i := cs.length - 1 - j
    if i < cs.length - 1 then cs.take (i + 1) else cs
  | none => cs

/-- Global replacement of `/,\s*c/` by `c` for a closing character `c`
(the trailing-comma fixes in `cleanJsonResponse`). -/
def collapseCommaBefore (close : Char) : List Char → List Char
  | [] => []
  | c :: t =>
    if c = ',' then
      (if listStarts (t.dropWhile jsIsWs) [close] then
        collapseCommaBefore close (t.dropWhile jsIsWs)
      else c :: collapseCommaBefore close t)
    else c :: collapseCommaBefore close t
termination_by l => l.length
decreasing_by
  · have := (List.dropWhile_suffix (l := t) jsIsWs).sublist.length_le
    simp only [List.length_cons]
    omega
  · simp
  · simp

/-- Global replacement of `/\s+/` by a single space. -/
def collapseWs : List Char → List Char
  | [] => []
  | c :: t =>
    if jsIsWs c then ' ' :: collapseWs (t.dropWhile jsIsWs)
    else c :: collapseWs t
termination_by l => l.length
decreasing_by
  · have := (List.dropWhile_suffix (l := t) jsIsWs).sublist.length_le
    simp only [List.length_cons]
    omega
  · simp

/-- Model of `String.prototype.trim` (ASCII whitespace). -/
def trimChars (cs : List Char) : List Char :=
  ((cs.dropWhile jsIsWs).reverse.dropWhile jsIsWs).reverse

/-- Embeds `cleanJsonResponse` (openaiService.ts lines 159-185), the
sequence of repairs applied to the raw model output. -/
def cleanJsonResponse (content : String) : String :=
  let cs0 := removeFences content.toList
  let cs1 := dropBeforeBrace cs0
  let cs2 := truncAfterBrace cs1
  let cs3 := cs2.map (fun c => if c = '\'' then '"' else c)
  let cs4 := collapseCommaBefore '\x7d' cs3
  let cs5 := collapseCommaBefore ']' cs4
  let cs6 := cs5.map (fun c => if c = '\n' then ' ' else c)
  let cs7 := collapseWs cs6
  String.mk (trimChars cs7)

/-! ### openaiService.ts: attemptFallbackParsing -/

/-- Tries a pattern matcher at every position of the input, returning the
first (leftmost) match — the search semantics of `String.prototype.match`
for the anchored-at-any-position patterns used below. -/
def scanFor (f : List Char → Option α) : List Char → Option α
  | [] => none
  | c :: t =>
    match f (c :: t) with
    | some x => some x
    | none => scanFor f t

/-- Matches `/"primary_category":\s*"(positive|negative|neutral)"/` at the
head of the input, returning the captured category. -/
def matchCategoryAt (cs : List Char) : Option String :=
  let pat := ("\"primary_category\":").toList
  if listStarts cs pat then
    match (cs.drop pat.length).dropWhile jsIsWs with
    | '"' :: r2 =>
      if listStarts r2 ("positive\"".toList) then some ("positive")
      else if listStarts r2 ("negative\"".toList) then some ("negative")
      else if listStarts r2 ("neutral\"".toList) then some ("neutral")
      else none
    | _ => none
  else none

/-- Matches `/"primary_confidence":\s*([\d.]+)/` at the head of the input,
returning the captured digits-and-dots run. -/
def matchConfidenceAt (cs : List Char) : Option String :=
  let pat := ("\"primary_confidence\":").toList
  if listStarts cs pat then
    let r := (cs.drop pat.length).dropWhile jsIsWs
    let run := r.takeWhile (fun c => c.isDigit || c = '.')
    if run.isEmpty then none else some (String.mk run)
  else none

/-- Matches `/"sentiment_score":\s*([-\d.]+)/` at the head of the input,
returning the captured digits-dots-hyphens run. -/
def matchSentimentAt (cs : List Char) : Option String :=
  let pat := ("\"sentiment_score\":").toList
  if listStarts cs pat then
    let r := (cs.drop pat.length).dropWhile jsIsWs
    let run := r.takeWhile (fun c => c.isDigit || c = '.' || c = '-')
    if run.isEmpty then none else some (String.mk run)
  else none

/-- Embeds `attemptFallbackParsing` (openaiService.ts lines 188-210): regex
extraction of the three key fields with generic placeholders elsewhere.
Its `try/catch` is modelled as total because no step of the body can throw.
The unused rating parameter mirrors the source signature (the rating is
only consumed by the unreachable catch branch). -/
def attemptFallbackParsing (content reviewText : String)
    (_rating : Option ℚ) : JsValue :=
  let cs := content.toList
  let catM := scanFor matchCategoryAt cs
  let confM := scanFor matchConfidenceAt cs
  let sentM := scanFor matchSentimentAt cs
  .vObj
    [("primary_category", .vStr (catM.getD ("neutral"))),
     ("primary_confidence", .vNum
       (match confM with
        | some s => jsParseFloat s
        | none => .fin (1 / 2))),
     ("secondary_categories", .vArr [.vStr "general"]),
     ("themes", .vArr [.vStr "review analysis"]),
     ("sentiment_score", .vNum
       (match sentM with
        | some s => jsParseFloat s
        | none => .fin 0)),
     ("key_phrases", .vArr [.vStr "analysis"]),
     ("summary", .vStr (jsSubstringTo reviewText 100 ++ "..."))]

/-! ### JSON.parse (strict grammar, as the engine implements it) -/

/-- JSON whitespace (strict: space, tab, newline, carriage return). -/
def jsonWs (c : Char) : Bool := c = ' ' || c = '\t' || c = '\n' || c = '\r'

/-- Value of a hexadecimal digit. -/
def hexVal (c : Char) : Option Nat :=
  if c.isDigit then some (c.toNat - 48)
  else if 'a' ≤ c && c ≤ 'f' then some (c.toNat - 87)
  else if 'A' ≤ c && c ≤ 'F' then some (c.toNat - 55)
  else none

/-- Parses the remainder of a JSON string literal (the opening quote already
consumed), handling the JSON escapes.  A `\uXXXX` unit is modelled as the
code point `XXXX` (surrogate halves degrade to `\0`; no claim depends on
them). -/
def escChar (e : Char) : Option Char :=
  if e = '"' then some '"'
  else if e = '\\' then some '\\'
  else if e = '/' then some '/'
  else if e = 'b' then some '\x08'
  else if e = 'f' then some '\x0c'
  else if e = 'n' then some '\n'
  else if e = 'r' then some '\r'
  else if e = 't' then some '\t'
  else none

def parseJsonStringAux : List Char → List Char → Option (String × List Char)
  | acc, '"' :: rest => some (String.mk acc.reverse, rest)
  | acc, '\\' :: e :: rest =>
    if e = 'u' then
      match rest with
      | h1 :: h2 :: h3 :: h4 :: rest2 =>
        (match hexVal h1, hexVal h2, hexVal h3, hexVal h4 with
         | some a, some b, some c, some d =>
           parseJsonStringAux
             (Char.ofNat (((a * 16 + b) * 16 + c) * 16 + d) :: acc) rest2
         | _, _, _, _ => none)
      | _ => none
    else
      match escChar e with
      | some c => parseJsonStringAux (c :: acc) rest
      | none => none
  | acc, c :: rest =>
    if c.toNat < 0x20 then none else parseJsonStringAux (c :: acc) rest
  | _, [] => none
termination_by acc l => l.length
decreasing_by all_goals (simp only [List.length_cons]; omega)

/-- Parses a JSON number (strict grammar: optional minus, `0` or a
non-zero-led digit run, optional fraction, optional exponent). -/
def parseJsonNumber (cs : List Char) : Option (ℚ × List Char) := do
  let (neg, cs1) := match cs with
    | '-' :: t => ((true : Bool), t)
    | t => (false, t)
  let (iv, r1) ← (match cs1 with
    | '0' :: r => some ((0 : ℚ), r)
    | c :: r =>
      if c.isDigit && c ≠ '0' then
        some ((digitsToNat ((c :: r).takeWhile Char.isDigit) : ℚ),
          (c :: r).dropWhile Char.isDigit)
      else none
    | [] => none)
  let (v2, r2) ← (match r1 with
    | '.' :: rf =>
      let ds := rf.takeWhile Char.isDigit
      if ds.isEmpty then none
      else some (iv + (digitsToNat ds : ℚ) / ((10 : ℚ) ^ ds.length),
        rf.dropWhile Char.isDigit)
    | _ => some (iv, r1))
  let (v3, r3) ← (match r2 with
    | 'e' :: re | 'E' :: re =>
      let (eneg, re1) := match re with
        | '-' :: t => ((true : Bool), t)
        | '+' :: t => (false, t)
        | t => (false, t)
      let ds := re1.takeWhile Char.isDigit
      if ds.isEmpty then none
      else if eneg then
        some (v2 / ((10 : ℚ) ^ digitsToNat ds), re1.dropWhile Char.isDigit)
      else some (v2 * ((10 : ℚ) ^ digitsToNat ds), re1.dropWhile Char.isDigit)
    | _ => some (v2, r2))
  some ((if neg then -v3 else v3), r3)

mutual

/-- Parses one JSON value; `fuel` bounds the recursion depth (the wrapper
supplies more than the input length, which amply suffices). -/
def parseJsonValue : Nat → List Char → Option (JsValue × List Char)
  | 0, _ => none
  | fuel + 1, cs =>
    match cs.dropWhile jsonWs with
    | [] => none
    | '\x7b' :: t =>
      (match t.dropWhile jsonWs with
       | '\x7d' :: r => some (.vObj [], r)
       | t1 => do
         let (fields, r) ← parseJsonMembers fuel t1
         pure (.vObj fields, r))
    | '[' :: t =>
      (match t.dropWhile jsonWs with
       | ']' :: r => some (.vArr [], r)
       | t1 => do
         let (elems, r) ← parseJsonElements fuel t1
         pure (.vArr elems, r))
    | '"' :: t => do
      let (s, r) ← parseJsonStringAux [] t
      pure (.vStr s, r)
    | 't' :: t =>
      if listStarts t ("rue".toList) then some (.vBool true, t.drop 3) else none
    | 'f' :: t =>
      if listStarts t ("alse".toList) then some (.vBool false, t.drop 4) else none
    | 'n' :: t =>
      if listStarts t ("ull".toList) then some (.vNull, t.drop 3) else none
    | cs1 => do
      let (q, r) ← parseJsonNumber cs1
      pure (.vNum (.fin q), r)

/-- Parses the members of a JSON object after the opening brace (the
empty-object case is handled by the caller).  With a duplicate key the later
member wins, as in JavaScript object construction. -/
def parseJsonMembers : Nat → List Char → Option (List (String × JsValue) × List Char)
  | 0, _ => none
  | fuel + 1, cs =>
    match cs.dropWhile jsonWs with
    | '"' :: t => do
      let (key, r1) ← parseJsonStringAux [] t
      match r1.dropWhile jsonWs with
      | ':' :: r3 => do
        let (v, r4) ← parseJsonValue fuel r3
        match r4.dropWhile jsonWs with
        | ',' :: r6 => do
          let (rest, r7) ← parseJsonMembers fuel r6
          pure ((if rest.any (fun kv => kv.1 = key) then rest
                 else (key, v) :: rest), r7)
        | '\x7d' :: r6 => pure ([(key, v)], r6)
        | _ => none
      | _ => none
    | _ => none

/-- Parses the elements of a JSON array after the opening bracket (the
empty-array case is handled by the caller). -/
def parseJsonElements : Nat → List Char → Option (List JsValue × List Char)
  | 0, _ => none
  | fuel + 1, cs => do
    let (v, r1) ← parseJsonValue fuel cs
    match r1.dropWhile jsonWs with
    | ',' :: r3 => do
      let (rest, r4) ← parseJsonElements fuel r3
      pure (v :: rest, r4)
    | ']' :: r3 => pure ([v], r3)
    | _ => none

end

/-- Model of `JSON.parse`: `none` is the thrown `SyntaxError` (trailing
non-whitespace also throws). -/
def jsonParse (s : String) : Option JsValue :=
  match parseJsonValue (2 * s.length + 4) s.toList with
  | some (v, rest) => if (rest.dropWhile jsonWs).isEmpty then some v else none
  | none => none

/-! ### openaiService.ts: analyzeReview and analyzeReviewFast -/

/-- Outcome of one chat-completion call: the call rejects (network error,
rate limit, ...) or resolves with free text.  A resolved call whose message
content is missing is modelled as the empty reply — exactly the values the
`if (!content) throw` guard treats as missing. -/
inductive LLMOutcome where
  | failure
  | reply (content : String)

/-- Embeds `analyzeReview` (openaiService.ts lines 21-101).  The OpenAI
call is the `llm` oracle; the prompt text (lines 22-46) only influences the
oracle and is not modelled.  A rejected call and an empty reply both land
in the outer catch and produce the fallback analysis; otherwise the reply
is cleaned, parsed strictly or by regex fallback, and sanitized. -/
def analyzeReview (llm : LLMOutcome) (reviewText : String)
    (rating : Option ℚ) : ReviewAnalysisResult :=
  match llm with
  | .failure => createFallbackAnalysis reviewText rating
  | .reply content =>
    if content = "" then createFallbackAnalysis reviewText rating
    else
      let cleaned := cleanJsonResponse content
      let parsed :=
        match jsonParse cleaned with
        | some v => v
        | none => attemptFallbackParsing cleaned reviewText rating
      validateAndSanitizeResult parsed reviewText rating

/-- Embeds `analyzeReviewFast` (openaiService.ts lines 104-156): the terse
prompt and smaller token budget only influence the oracle; the response
processing pipeline is identical to `analyzeReview`. -/
def analyzeReviewFast (llm : LLMOutcome) (reviewText : String)
    (rating : Option ℚ) : ReviewAnalysisResult :=
  match llm with
  | .failure => createFallbackAnalysis reviewText rating
  | .reply content =>
    if content = "" then createFallbackAnalysis reviewText rating
    else
      let cleaned := cleanJsonResponse content
      let parsed :=
        match jsonParse cleaned with
        | some v => v
        | none => attemptFallbackParsing cleaned reviewText rating
      validateAndSanitizeResult parsed reviewText rating

/-! ### openaiService.ts: batch analysis -/

/-- One review record handed to batch analysis
(`{ id, text, rating? }`). -/
structure ReviewInput where
  id : String
  text : String
  rating : Option ℚ
deriving DecidableEq

/-- One batch result (`{ id, analysis }`). -/
structure IdAnalysis where
  id : String
  analysis : ReviewAnalysisResult
deriving DecidableEq

/-- Events observable from the batch engine, in program order: a window of
concurrently issued analyses (each window is awaited in full —
`Promise.all` — before the next event happens) and an inter-window pacing
delay in milliseconds. -/
inductive BatchEv where
  | window (ids : List String)
  | delay (ms : ℚ)
deriving DecidableEq

/-- The per-item closure inside a window: the analyzer's result, or — when
that promise rejects (oracle outcome `.error`) — the fallback analysis for
that one id. -/
def runBatchItem (call : ReviewInput → Except String ReviewAnalysisResult)
    (r : ReviewInput) : IdAnalysis :=
  match call r with
  | .ok a => ⟨r.id, a⟩
  | .error _ => ⟨r.id, createFallbackAnalysis r.text r.rating⟩

/-- The window loop shared verbatim by `batchAnalyzeReviewsFast`
(openaiService.ts lines 306-340) and `batchAnalyzeReviewsUltraFast` (lines
343-376); the two differ only in the analyzer called (folded into the
`call` oracle) and the pacing delay (500 ms vs 200 ms).  Each iteration
takes `reviews.slice(i, i + concurrency)`, awaits the whole window, and —
when another window follows — sleeps `delayMs`.  `fuel` bounds the number
of loop iterations: the source loop never advances when `concurrency = 0`
and reviews remain, which the fuelled model surfaces as `none`. -/
def batchWindowedGo (call : ReviewInput → Except String ReviewAnalysisResult)
    (delayMs : ℚ) (reviews : List ReviewInput) (concurrency : Nat) :
    Nat → Nat → Option (List IdAnalysis × List BatchEv)
  | 0, _ => none
  | fuel + 1, i =>
    if i < reviews.length then
      let batch := (reviews.drop i).take concurrency
      let batchResults := batch.map (runBatchItem call)
      let evs :=
        if i + concurrency < reviews.length then
          [BatchEv.window (batch.map ReviewInput.id), BatchEv.delay delayMs]
        else
          [BatchEv.window (batch.map ReviewInput.id)]
      match batchWindowedGo call delayMs reviews concurrency fuel (i + concurrency) with
      | none => none
      | some (rest, revs) => some (batchResults ++ rest, evs ++ revs)
    else some ([], [])

/-- Embeds `batchAnalyzeReviewsFast`: windows of size `concurrency`, 500 ms
pacing between windows.  `none` models non-termination of the source loop
(possible only for `concurrency = 0`). -/
def batchAnalyzeReviewsFast (call : ReviewInput → Except String ReviewAnalysisResult)
    (reviews : List ReviewInput) (concurrency : Nat) :
    Option (List IdAnalysis × List BatchEv) :=
  batchWindowedGo call 500 reviews concurrency (reviews.length + 1) 0

/-- Embeds `batchAnalyzeReviewsUltraFast`: windows of size `concurrency`,
200 ms pacing between windows, the fast analyzer behind the `call`
oracle. -/
def batchAnalyzeReviewsUltraFast (call : ReviewInput → Except String ReviewAnalysisResult)
    (reviews : List ReviewInput) (concurrency : Nat) :
    Option (List IdAnalysis × List BatchEv) :=
  batchWindowedGo call 200 reviews concurrency (reviews.length + 1) 0

/-- Embeds the sequential `batchAnalyzeReviews` (openaiService.ts lines
287-304): one review at a time with a one-second pause (not traced here).
Unlike the windowed variants, an item whose promise rejects is logged and
skipped — no fallback entry is pushed for it. -/
def batchAnalyzeReviews (call : ReviewInput → Except String ReviewAnalysisResult) :
    List ReviewInput → List IdAnalysis
  | [] => []
  | r :: rest =>
    match call r with
    | .ok a => ⟨r.id, a⟩ :: batchAnalyzeReviews call rest
    | .error _ => batchAnalyzeReviews call rest

/-- Divergence of the window loop from index 0: no iteration budget makes
it return.  This is the meaning of `batchAnalyzeReviewsFast`'s `for (let
i = 0; i < reviews.length; i += concurrency)` never terminating. -/
def batchLoopDiverges (call : ReviewInput → Except String ReviewAnalysisResult)
    (delayMs : ℚ) (reviews : List ReviewInput) (concurrency : Nat) : Prop :=
  ∀ fuel, batchWindowedGo call delayMs reviews concurrency fuel 0 = none

/-- Consecutive chunks of size `c` (the last chunk may be shorter);
intended for `c ≥ 1`. -/
def chunksOf (c : Nat) : List α → List (List α)
  | [] => []
  | x :: xs => (x :: xs.take (c - 1)) :: chunksOf c (xs.drop (c - 1))
termination_by l => l.length
decreasing_by simp only [List.length_drop, List.length_cons]; omega

/-- The event trace the windowed engine is expected to produce: the windows
in order, one pacing delay strictly between consecutive windows. -/
def expectedTrace (d : ℚ) : List (List String) → List BatchEv
  | [] => []
  | [w] => [.window w]
  | w :: ws => .window w :: .delay d :: expectedTrace d ws

/-! ### hybridScraper.ts: provider merge -/

/-- A persisted raw review as far as the merge logic observes it. -/
structure RawReview where
  original_text : String
  rating : ℚ
deriving DecidableEq

/-- Outcome of one provider call: `success` flag plus an optional review
array (absent on failure).  An empty array is truthy in the
`result.success && result.reviews` guard. -/
structure ProviderResult where
  success : Bool
  reviews : Option (List RawReview)

/-- Observable outcome of the hybrid scrape. -/
structure HybridOutcome where
  success : Bool
  reviews : List RawReview
  totalCount : Nat
deriving DecidableEq

/-- Embeds `scrapeAllReviewsHybrid` (hybridScraper.ts lines 10-83).  The
Places API result is kept wholesale; scraped reviews are added only when
not similar to any already-kept (Places) review, and only when the batch
insert of the additions succeeds (`insertOk`; the database returns the
saved copies of exactly the inserted rows).  Error-string bookkeeping is
omitted — no claim observes it. -/
def scrapeAllReviewsHybrid (placesResult scrapingResult : ProviderResult)
    (insertOk : Bool) : HybridOutcome :=
  let placesKept :=
    if placesResult.success && placesResult.reviews.isSome then
      placesResult.reviews.getD []
    else []
  let merged :=
    if scrapingResult.success && scrapingResult.reviews.isSome then
      let scraped := scrapingResult.reviews.getD []
      let newReviews := scraped.filter (fun sr =>
        !(placesKept.any (fun er =>
          areSimilarReviews er.original_text sr.original_text)))
      if newReviews.length > 0 then
        (if insertOk then placesKept ++ newReviews else placesKept)
      else placesKept
    else placesKept
  { success := merged.length > 0
    reviews := merged
    totalCount := merged.length }

/-! ### Analysis routes: ingestion filter -/

/-- A review row as the analysis route reads it (`review_analyses!left`
join collapsed into a flag). -/
structure DBReview where
  id : String
  original_text : Option String
  rating : Option ℚ
  hasAnalysis : Bool
deriving DecidableEq

/-- The stoplist of generic/spam phrases. -/
def spamPatterns : List String :=
  ["good", "bad", "ok", "nice", "great", "terrible", "awful",
   "thumbs up", "👍", "👎", "like", "dislike"]

/-- The predicate of `filterReviewsForAnalysis` (analysis routes file,
lines 483-503): keep a review unless its lowercased text is shorter than
10 UTF-16 units, exactly equals a stoplist phrase, or has fewer than 5
characters in `a`-`z`. -/
def keepForAnalysis (review : DBReview) : Bool :=
  let text := jsToLower (review.original_text.getD "")
  if jsStrLen text < 10 then false
  else if spamPatterns.any (fun p => text = p) then false
  else if (text.toList.filter (fun c => 'a' ≤ c && c ≤ 'z')).length < 5 then false
  else true

/-- Embeds `filterReviewsForAnalysis`. -/
def filterReviewsForAnalysis (reviews : List DBReview) : List DBReview :=
  reviews.filter keepForAnalysis

/-! ### outscraperService: pollForResults -/

/-- One HTTP poll response as the loop inspects it: status code, the
`status` field of the body, and an opaque handle for the body itself. -/
structure PollResp where
  httpStatus : Nat
  dataStatus : String
  payload : Nat
deriving DecidableEq

/-- Outcome of one poll attempt: a response, or a thrown request error
(timeout, network failure). -/
inductive PollAttempt where
  | resp (r : PollResp)
  | exn
deriving DecidableEq

/-- The observable result of `pollForResults`: the returned record plus the
number of attempts made and the waits (in ms) slept after pending
attempts, in order. -/
structure PollResult where
  success : Bool
  data : Option Nat
  error : Option String
  attempts : Nat
  waits : List ℚ
deriving DecidableEq

/-- Embeds the `for` loop of `pollForResults` (async-scrape provider file,
lines 119-154).  `left` is the number of attempts still allowed including
the current one, so the attempt number is `maxAttempts - left + 1`; the
`attempt === maxAttempts` test of the catch branch is `left = 0` here.
Running out of attempts (the loop exit) yields the max-attempts timeout
error. -/
def pollGo (responses : Nat → PollAttempt) (maxAttempts : Nat) : Nat → PollResult
  | 0 =>
    { success := false, data := none
      error := some ("Polling timeout - max attempts reached")
      attempts := 0, waits := [] }
  | left + 1 =>
    let attempt := maxAttempts - left
    match responses attempt with
    | .resp r =>
      if r.httpStatus = 200 && r.dataStatus = "Success" then
        { success := true, data := some r.payload, error := none
          attempts := 1, waits := [] }
      else if r.dataStatus = "Failed" then
        { success := false, data := none
          error := some ("Outscraper processing failed")
          attempts := 1, waits := [] }
      else
        let w := min (5000 * (attempt : ℚ)) 30000
        let res := pollGo responses maxAttempts left
        { res with attempts := res.attempts + 1, waits := w :: res.waits }
    | .exn =>
      if left = 0 then
        { success := false, data := none
          error := some ("Polling timeout - results not ready")
          attempts := 1, waits := [] }
      else
        let res := pollGo responses maxAttempts left
        { res with attempts := res.attempts + 1 }

/-- Embeds `pollForResults` with its default bound of 12 attempts. -/
def pollForResults (responses : Nat → PollAttempt) (maxAttempts : Nat) : PollResult :=
  pollGo responses maxAttempts maxAttempts

/-! ### Route orchestration (project creation and project analysis) -/

/-- Project lifecycle status. -/
inductive Status where
  | pending
  | processing
  | completed
  | error
deriving DecidableEq

/-- Events a route execution performs against the store and the LLM, in
program order.  `setStatus`/`setAnalyzed` are project-row writes (the final
write of the analysis route sets both fields in one update, modelled as
two adjacent events); `window`/`delay` are the batch engine's events;
`insertAnalysis` is one `review_analyses` insert with its outcome. -/
inductive Ev where
  | createPending
  | setStatus (s : Status)
  | setAnalyzed (n : Nat)
  | window (ids : List String)
  | delay (ms : ℚ)
  | insertAnalysis (id : String) (ok : Bool)
  | scrapeRun
deriving DecidableEq

/-- Injects a batch-engine event into the route event alphabet. -/
def liftBatchEv : BatchEv → Ev
  | .window ids => .window ids
  | .delay ms => .delay ms

/-- The JSON body (plus HTTP status) of the analysis route's response;
absent JSON fields are `none`. -/
structure AnalysisResponse where
  httpStatus : Nat
  success : Bool
  message : Option String
  reviewCount : Option Nat
  skipped : Option Nat
  skippedCount : Option Nat
  totalReviews : Option Nat
  error : Option String
deriving DecidableEq

/-- The oracle with which the analysis route calls `analyzeReview`: the
promise always resolves because `analyzeReview` catches every internal
failure — the route-level fallback branch is therefore dead code. -/
def analysisCall (llm : String → LLMOutcome) (r : ReviewInput) :
    Except String ReviewAnalysisResult :=
  .ok (analyzeReview (llm r.id) r.text r.rating)

/-- The result-persistence loop of the analysis route (lines 76-113):
counts successful inserts and writes an `analyzed_reviews` progress update
after every tenth success. -/
def insertLoop (insertFails : String → Bool) :
    List IdAnalysis → Nat → (Nat × List Ev)
  | [], count => (count, [])
  | r :: rest, count =>
    if insertFails r.id then
      ((insertLoop insertFails rest count).1,
       Ev.insertAnalysis r.id false :: (insertLoop insertFails rest count).2)
    else
      ((insertLoop insertFails rest (count + 1)).1,
       (Ev.insertAnalysis r.id true ::
         (if (count + 1) % 10 = 0 then [Ev.setAnalyzed (count + 1)] else [])) ++
         (insertLoop insertFails rest (count + 1)).2)

/-- Embeds the analysis route `router.post('/project/:projectId')`
(analysis routes file, lines 12-136).  Oracles: `dbReviews` is the outcome
of the reviews query (`.error` models a query error, turned into a 500
before anything else happens), `llm` resolves each review's
chat-completion call, `insertFails` decides each analysis insert.  The
filtered reviews all carry non-null text (the filter discards null/short
texts), so reading `original_text` with a `""` default is faithful.  The
batch call uses concurrency 10; its fuelled model cannot run out at a
positive concurrency, and the impossible `none` arm is mapped to a 500
sentinel. -/
def runAnalysisRoute (dbReviews : Except String (List DBReview))
    (llm : String → LLMOutcome) (insertFails : String → Bool) :
    AnalysisResponse × List Ev :=
  match dbReviews with
  | .error msg =>
    ({ httpStatus := 500, success := false, message := none
       reviewCount := none, skipped := none, skippedCount := none
       totalReviews := none, error := some msg }, [])
  | .ok reviews =>
    if reviews.length = 0 then
      ({ httpStatus := 200, success := true, message := some ("No reviews found")
         reviewCount := some 0, skipped := none, skippedCount := none
         totalReviews := none, error := none }, [])
    else
      let unanalyzedReviews := reviews.filter (fun r => !r.hasAnalysis)
      let filteredReviews := filterReviewsForAnalysis unanalyzedReviews
      let skippedCount := unanalyzedReviews.length - filteredReviews.length
      if filteredReviews.length = 0 then
        ({ httpStatus := 200, success := true
           message := some
             s!"All {unanalyzedReviews.length} reviews already analyzed or filtered out"
           reviewCount := some 0, skipped := some skippedCount
           skippedCount := none, totalReviews := none, error := none }, [])
      else
        let reviewsForAnalysis := filteredReviews.map (fun r =>
          ({ id := r.id, text := r.original_text.getD ""
             rating := r.rating } : ReviewInput))
        match batchAnalyzeReviewsFast (analysisCall llm) reviewsForAnalysis 10 with
        | none =>
          ({ httpStatus := 500, success := false, message := none
             reviewCount := none, skipped := none, skippedCount := none
             totalReviews := none, error := some ("unreachable") }, [])
        | some (analysisResults, trace) =>
          let analyzedCount := (insertLoop insertFails analysisResults 0).1
          let insEvs := (insertLoop insertFails analysisResults 0).2
          ({ httpStatus := 200, success := true
             message := some
               s!"Successfully analyzed {analyzedCount} reviews (skipped {skippedCount} low-value reviews for faster processing)"
             reviewCount := some analyzedCount, skipped := none
             skippedCount := some skippedCount
             totalReviews := some unanalyzedReviews.length, error := none },
           Ev.setStatus .processing :: (trace.map liftBatchEv ++ insEvs ++
             [Ev.setStatus .completed, Ev.setAnalyzed analyzedCount]))

/-- The records the analysis route hands to the batch engine: the
unanalyzed, filter-surviving reviews of the project (an abbreviation used
by the statements about the route). -/
def reviewsForAnalysisOf (rs : List DBReview) : List ReviewInput :=
  (filterReviewsForAnalysis (rs.filter (fun r => !r.hasAnalysis))).map (fun r =>
    { id := r.id, text := r.original_text.getD "", rating := r.rating })

/-- Outcome of the Outscraper scrape as the creation route observes it. -/
structure ScrapeOutcome where
  success : Bool
  reviewCount : Nat
deriving DecidableEq

/-- Response of the project-creation route (body details beyond the
success flag are not observed by any claim). -/
structure CreateProjectResponse where
  httpStatus : Nat
  success : Bool
deriving DecidableEq

/-- Embeds the project-creation route `router.post('/')` (projects.ts
lines 43-102): create the project as `pending`; when a Google URL is
supplied, set `processing`, run the scrape, then set `completed` on
success and `error` on failure (the same write also stores the review
count, not traced). -/
def createProjectRoute (nameGiven : Bool) (projectInsertFails : Bool)
    (googleUrl : Option String) (scrape : ScrapeOutcome) :
    CreateProjectResponse × List Ev :=
  if !nameGiven then ({ httpStatus := 400, success := false }, [])
  else if projectInsertFails then ({ httpStatus := 500, success := false }, [])
  else
    match googleUrl with
    | none => ({ httpStatus := 200, success := true }, [Ev.createPending])
    | some _ =>
      ({ httpStatus := 200, success := true },
       [Ev.createPending, Ev.setStatus .processing, Ev.scrapeRun,
        Ev.setStatus (if scrape.success then .completed else .error)])

/-! ## Theorems

First the helper lemmas shared between claims, then one theorem (plus
witness/counterexample where applicable) per claim. -/

/-! ### Well-formedness of analysis results -/

/-- The output contract of the analysis engine: valid category, confidence
in `[0, 1]`, sentiment in `[-1, 1]` (both finite), and at most five entries
in each list field. -/
def resultWellFormed (r : ReviewAnalysisResult) : Prop :=
  r.primary_category ∈ (["positive", "negative", "neutral"] : List String) ∧
  (∃ q, r.primary_confidence = .fin q ∧ 0 ≤ q ∧ q ≤ 1) ∧
  (∃ q, r.sentiment_score = .fin q ∧ -1 ≤ q ∧ q ≤ 1) ∧
  r.secondary_categories.length ≤ 5 ∧
  r.themes.length ≤ 5 ∧
  r.key_phrases.length ≤ 5

/-- A rating is in the domain the data model gives it: absent, the
`0` placeholder, or a star value between 1 and 5. -/
def ratingInRange (rating : Option ℚ) : Prop :=
  ∀ r, rating = some r → r = 0 ∨ (1 ≤ r ∧ r ≤ 5)

theorem inferCategory_mem (rating : Option ℚ) :
    inferCategoryFromRating rating ∈ (["positive", "negative", "neutral"] : List String) := by
  cases rating with
  | none => simp [inferCategoryFromRating]
  | some r =>
    simp only [inferCategoryFromRating]
    split_ifs <;> simp

theorem pickCategory_mem (v : JsValue) (rating : Option ℚ) :
    pickCategory v rating ∈ (["positive", "negative", "neutral"] : List String) := by
  cases v with
  | vStr s =>
    simp only [pickCategory]
    split_ifs with h
    · simp only [Bool.or_eq_true, decide_eq_true_eq] at h
      simp only [List.mem_cons, List.mem_singleton]
      tauto
    · exact inferCategory_mem rating
  | vNull => exact inferCategory_mem rating
  | vUndefined => exact inferCategory_mem rating
  | vBool b => exact inferCategory_mem rating
  | vNum n => exact inferCategory_mem rating
  | vArr es => exact inferCategory_mem rating
  | vObj fs => exact inferCategory_mem rating

theorem clamp01_wf (n : JsNum) :
    ∃ q, jsMaxNum (.fin 0) (jsMinNum (.fin 1) (jsOrNum n (1 / 2))) = .fin q ∧
      0 ≤ q ∧ q ≤ 1 := by
  cases n with
  | fin q =>
    by_cases h : q = 0
    · exact ⟨max 0 (min 1 (1 / 2)), by simp [jsOrNum, JsNum.truthy, h, jsMinNum, jsMaxNum],
        le_max_left _ _, max_le (by norm_num) (min_le_left _ _)⟩
    · exact ⟨max 0 (min 1 q), by simp [jsOrNum, JsNum.truthy, h, jsMinNum, jsMaxNum],
        le_max_left _ _, max_le (by norm_num) (min_le_left _ _)⟩
  | inf pos =>
    cases pos with
    | false => exact ⟨0, by simp [jsOrNum, JsNum.truthy, jsMinNum, jsMaxNum], le_refl _, by norm_num⟩
    | true => exact ⟨1, by simp [jsOrNum, JsNum.truthy, jsMinNum, jsMaxNum], by norm_num, le_refl _⟩
  | nan =>
    exact ⟨max 0 (min 1 (1 / 2)), by simp [jsOrNum, JsNum.truthy, jsMinNum, jsMaxNum],
      le_max_left _ _, max_le (by norm_num) (min_le_left _ _)⟩

theorem clampConfidence_wf (v : JsValue) :
    ∃ q, clampConfidence v = .fin q ∧ 0 ≤ q ∧ q ≤ 1 := by
  simpa only [clampConfidence] using clamp01_wf (parseFloatJs v)

theorem clamp11_wf (n : JsNum) :
    ∃ q, jsMaxNum (.fin (-1)) (jsMinNum (.fin 1) (jsOrNum n 0)) = .fin q ∧
      -1 ≤ q ∧ q ≤ 1 := by
  cases n with
  | fin q =>
    by_cases h : q = 0
    · exact ⟨max (-1) (min 1 0), by simp [jsOrNum, JsNum.truthy, h, jsMinNum, jsMaxNum],
        le_max_left _ _, max_le (by norm_num) (min_le_left _ _)⟩
    · exact ⟨max (-1) (min 1 q), by simp [jsOrNum, JsNum.truthy, h, jsMinNum, jsMaxNum],
        le_max_left _ _, max_le (by norm_num) (min_le_left _ _)⟩
  | inf pos =>
    cases pos with
    | false =>
      exact ⟨-1, by simp [jsOrNum, JsNum.truthy, jsMinNum, jsMaxNum], le_refl _, by norm_num⟩
    | true =>
      exact ⟨1, by simp [jsOrNum, JsNum.truthy, jsMinNum, jsMaxNum], by norm_num, le_refl _⟩
  | nan =>
    exact ⟨max (-1) (min 1 0), by simp [jsOrNum, JsNum.truthy, jsMinNum, jsMaxNum],
      le_max_left _ _, max_le (by norm_num) (min_le_left _ _)⟩

theorem clampSentiment_wf (v : JsValue) :
    ∃ q, clampSentiment v = .fin q ∧ -1 ≤ q ∧ q ≤ 1 := by
  simpa only [clampSentiment] using clamp11_wf (parseFloatJs v)

theorem stringArrayOr_len (v : JsValue) (d : List String) (h : d.length ≤ 5) :
    (stringArrayOr v d).length ≤ 5 := by
  cases v <;> simp only [stringArrayOr] <;> try exact h
  exact List.length_take_le _ _

theorem createFallback_wf (reviewText : String) (rating : Option ℚ)
    (h : ratingInRange rating) :
    resultWellFormed (createFallbackAnalysis reviewText rating) := by
  refine ⟨inferCategory_mem rating, ⟨3 / 5, rfl, by norm_num, by norm_num⟩, ?_,
    by simp [createFallbackAnalysis], by simp [createFallbackAnalysis],
    by simp [createFallbackAnalysis]⟩
  cases rating with
  | none => exact ⟨0, rfl, by norm_num, by norm_num⟩
  | some r =>
    rcases h r rfl with h0 | ⟨h1, h5⟩
    · refine ⟨0, ?_, by norm_num, by norm_num⟩
      simp [createFallbackAnalysis, h0]
    · by_cases h0 : r = 0
      · exact absurd (h0 ▸ h1) (by norm_num)
      · refine ⟨(r - 3) / 2, ?_, by linarith, by linarith⟩
        simp [createFallbackAnalysis, h0]

theorem validateInner_ok_wf (result : JsValue) (rating : Option ℚ)
    (r : ReviewAnalysisResult) (h : validateInner result rating = .ok r) :
    resultWellFormed r := by
  have wf : ∀ pc c s sc t k su : JsValue, resultWellFormed
      { primary_category := pickCategory pc rating
        primary_confidence := clampConfidence c
        secondary_categories := stringArrayOr sc ["general"]
        themes := stringArrayOr t ["general feedback"]
        sentiment_score := clampSentiment s
        key_phrases := stringArrayOr k ["review"]
        summary := pickSummary su (stringArrayOr t ["general feedback"])
          (pickCategory pc rating) } := by
    intro pc c s sc t k su
    exact ⟨pickCategory_mem pc rating, clampConfidence_wf c, clampSentiment_wf s,
      stringArrayOr_len sc _ (by norm_num), stringArrayOr_len t _ (by norm_num),
      stringArrayOr_len k _ (by norm_num)⟩
  cases result with
  | vNull => simp [validateInner, getField, bind, Except.bind] at h
  | vUndefined => simp [validateInner, getField, bind, Except.bind] at h
  | vBool b =>
    simp only [validateInner, getField, bind, Except.bind, pure, Except.pure,
      Except.ok.injEq] at h
    exact h ▸ wf _ _ _ _ _ _ _
  | vNum n =>
    simp only [validateInner, getField, bind, Except.bind, pure, Except.pure,
      Except.ok.injEq] at h
    exact h ▸ wf _ _ _ _ _ _ _
  | vStr s =>
    simp only [validateInner, getField, bind, Except.bind, pure, Except.pure,
      Except.ok.injEq] at h
    exact h ▸ wf _ _ _ _ _ _ _
  | vArr es =>
    simp only [validateInner, getField, bind, Except.bind, pure, Except.pure,
      Except.ok.injEq] at h
    exact h ▸ wf _ _ _ _ _ _ _
  | vObj fs =>
    simp only [validateInner, getField, bind, Except.bind, pure, Except.pure,
      Except.ok.injEq] at h
    exact h ▸ wf _ _ _ _ _ _ _

theorem validateAndSanitize_wf (v : JsValue) (reviewText : String)
    (rating : Option ℚ) (h : ratingInRange rating) :
    resultWellFormed (validateAndSanitizeResult v reviewText rating) := by
  unfold validateAndSanitizeResult
  cases hv : validateInner v rating with
  | ok r => exact validateInner_ok_wf v rating r hv
  | error e => exact createFallback_wf reviewText rating h

theorem analyzeReview_wf (llm : LLMOutcome) (reviewText : String)
    (rating : Option ℚ) (h : ratingInRange rating) :
    resultWellFormed (analyzeReview llm reviewText rating) := by
  cases llm with
  | failure => exact createFallback_wf reviewText rating h
  | reply content =>
    unfold analyzeReview
    by_cases hc : content = ""
    · simp only [hc, if_pos rfl]
      exact createFallback_wf reviewText rating h
    · simp only [if_neg hc]
      exact validateAndSanitize_wf _ reviewText rating h

theorem analyzeReviewFast_wf (llm : LLMOutcome) (reviewText : String)
    (rating : Option ℚ) (h : ratingInRange rating) :
    resultWellFormed (analyzeReviewFast llm reviewText rating) := by
  cases llm with
  | failure => exact createFallback_wf reviewText rating h
  | reply content =>
    unfold analyzeReviewFast
    by_cases hc : content = ""
    · simp only [hc, if_pos rfl]
      exact createFallback_wf reviewText rating h
    · simp only [if_neg hc]
      exact validateAndSanitize_wf _ reviewText rating h

/-! ### Claim C1 -/

/-- Claim C1, amended.  For every LLM outcome (rejected call, empty reply,
arbitrary — possibly malformed — reply text), every review text, and every
rating in the data model's range (absent, the `0` placeholder, or between
1 and 5), both `analyzeReview` and `analyzeReviewFast` return (they are
total functions of the oracle — the never-throws part of the claim) a
result with `primary_category` among positive/negative/neutral, finite
`primary_confidence` in `[0, 1]`, finite `sentiment_score` in `[-1, 1]`,
and at most five entries in each list field.  The amendment restricts the
rating: for an out-of-range rating the unclamped fallback sentiment
`(rating - 3) / 2` leaves `[-1, 1]` (see the counterexample). -/
theorem C1_analyze_always_wellformed (llm llm2 : LLMOutcome)
    (reviewText : String) (rating : Option ℚ) (h : ratingInRange rating) :
    resultWellFormed (analyzeReview llm reviewText rating) ∧
    resultWellFormed (analyzeReviewFast llm2 reviewText rating) :=
  ⟨analyzeReview_wf llm reviewText rating h,
   analyzeReviewFast_wf llm2 reviewText rating h⟩

/-- Witness for C1: a concrete malformed reply at rating 5 satisfies the
hypothesis and the conclusion. -/
theorem C1_witness :
    ratingInRange (some 5) ∧
    (resultWellFormed (analyzeReview (.reply ("not json"))
        ("Great service, loved it!") (some 5)) ∧
     resultWellFormed (analyzeReviewFast (.reply ("not json"))
        ("Great service, loved it!") (some 5))) := by
  have h : ratingInRange (some 5) := by
    intro r hr
    injection hr with h2
    exact Or.inr ⟨by rw [← h2]; norm_num, by rw [← h2]⟩
  exact ⟨h, C1_analyze_always_wellformed _ _ _ _ h⟩

/-- Counterexample to C1 as stated: with an out-of-range rating of 7 on the
fallback path (rejected LLM call), the unclamped fallback sentiment is 2,
outside `[-1, 1]` — so the bound does not hold for *every* optional
rating. -/
theorem C1_counterexample :
    (analyzeReview .failure ("service was fine") (some 7)).sentiment_score = .fin 2 ∧
    ¬ resultWellFormed (analyzeReview .failure ("service was fine") (some 7)) := by
  have hs : (analyzeReview .failure ("service was fine") (some 7)).sentiment_score
      = .fin 2 := by
    show (createFallbackAnalysis ("service was fine") (some 7)).sentiment_score = .fin 2
    norm_num [createFallbackAnalysis]
  refine ⟨hs, ?_⟩
  intro hw
  rcases hw with ⟨-, -, ⟨q, hq, -, hle⟩, -⟩
  rw [hs] at hq
  injection hq with h2
  rw [← h2] at hle
  norm_num at hle

/-! ### String-scanning correctness (used by claims C4 and C5) -/

theorem listStarts_iff [DecidableEq α] : ∀ (hay pre : List α),
    listStarts hay pre = true ↔ pre <+: hay
  | hay, [] => by simp [listStarts]
  | [], b :: u => by simp [listStarts]
  | a :: t, b :: u => by
    simp only [listStarts, Bool.and_eq_true, decide_eq_true_eq,
      List.cons_prefix_cons]
    constructor
    · rintro ⟨hab, h⟩
      exact ⟨hab.symm, (listStarts_iff t u).mp h⟩
    · rintro ⟨hab, h⟩
      exact ⟨hab.symm, (listStarts_iff t u).mpr h⟩

theorem listIncludes_iff [DecidableEq α] : ∀ (needle hay : List α),
    listIncludes needle hay = true ↔ needle <:+: hay
  | needle, [] => by
    simp [listIncludes, List.infix_nil, List.isEmpty_iff]
  | needle, a :: t => by
    simp only [listIncludes, Bool.or_eq_true]
    rw [listStarts_iff (a :: t) needle, listIncludes_iff needle t,
      List.infix_cons_iff]

/-- Occurrence check on strings agrees with list-infix occurrence. -/
theorem jsIncludes_iff (hay sub : String) :
    jsIncludes hay sub = true ↔ sub.toList <:+: hay.toList :=
  listIncludes_iff sub.toList hay.toList

theorem splitWsGo_ne_nil : ∀ (st : Option (List Char)) (l : List Char),
    splitWsGo st l ≠ []
  | some _, [] => by simp [splitWsGo]
  | none, [] => by simp [splitWsGo]
  | some cur, c :: t => by
    simp only [splitWsGo]
    split_ifs with h
    · simp
    · exact splitWsGo_ne_nil (some (c :: cur)) t
  | none, c :: t => by
    simp only [splitWsGo]
    split_ifs with h
    · exact splitWsGo_ne_nil none t
    · exact splitWsGo_ne_nil (some [c]) t

/-- The whitespace split never returns the empty token list (the JavaScript
`split` of any string has at least one element). -/
theorem jsSplitWs_ne_nil (s : String) : jsSplitWs s ≠ [] :=
  splitWsGo_ne_nil (some []) s.toList

/-! ### Claim C4 -/

/-- Claim C4, amended.  `areSimilarReviews` returns true exactly when both
texts are non-empty and either (a) the text that is shorter in UTF-16
units occurs, lowercased, inside the other, or (b) the number of
whitespace-separated tokens of the FIRST text (with multiplicity) that
also occur among the second text's tokens, divided by the smaller token
count, exceeds 0.7.  The amendment replaces the claim's symmetric "count
of shared tokens" by this first-argument-weighted count: the code's rule
is asymmetric (see the counterexample). -/
theorem C4_areSimilarReviews_rule (t1 t2 : String) :
    areSimilarReviews t1 t2 = true ↔
      t1 ≠ "" ∧ t2 ≠ "" ∧
      (((jsToLower (if jsStrLen t1 < jsStrLen t2 then t1 else t2)).toList <:+:
          (jsToLower (if jsStrLen t1 ≥ jsStrLen t2 then t1 else t2)).toList) ∨
        (((jsSplitWs (jsToLower t1)).filter
            (fun w => (jsSplitWs (jsToLower t2)).contains w)).length : ℚ) /
          (min ((jsSplitWs (jsToLower t1)).length : ℚ)
            ((jsSplitWs (jsToLower t2)).length : ℚ)) > 7 / 10) := by
  by_cases h1 : t1 = ""
  · simp [areSimilarReviews, h1]
  by_cases h2 : t2 = ""
  · simp [areSimilarReviews, h1, h2]
  have hmin : (0 : ℚ) < min ((jsSplitWs (jsToLower t1)).length : ℚ)
      ((jsSplitWs (jsToLower t2)).length : ℚ) := by
    have p1 : 0 < (jsSplitWs (jsToLower t1)).length :=
      List.length_pos.mpr (jsSplitWs_ne_nil _)
    have p2 : 0 < (jsSplitWs (jsToLower t2)).length :=
      List.length_pos.mpr (jsSplitWs_ne_nil _)
    exact lt_min (by exact_mod_cast p1) (by exact_mod_cast p2)
  have hcond : ¬ ((decide (t1 = "") || decide (t2 = "")) = true) := by
    simp [h1, h2]
  unfold areSimilarReviews
  rw [if_neg hcond]
  by_cases hInc : jsIncludes (jsToLower (if jsStrLen t1 ≥ jsStrLen t2 then t1 else t2))
      (jsToLower (if jsStrLen t1 < jsStrLen t2 then t1 else t2)) = true
  · rw [if_pos hInc]
    have hi := (jsIncludes_iff _ _).mp hInc
    constructor
    · intro _
      exact ⟨h1, h2, Or.inl hi⟩
    · intro _
      rfl
  · rw [if_neg hInc]
    have hni : ¬ ((jsToLower (if jsStrLen t1 < jsStrLen t2 then t1 else t2)).toList <:+:
        (jsToLower (if jsStrLen t1 ≥ jsStrLen t2 then t1 else t2)).toList) := fun hc =>
      hInc ((jsIncludes_iff _ _).mpr hc)
    simp only [decide_eq_true_eq, ne_eq, h1, not_false_iff, h2, true_and, hni,
      false_or]
    rw [gt_iff_lt, gt_iff_lt, lt_div_iff hmin, mul_comm]

/-- Counterexample to C4 as stated: the claim's rule — (a) substring or
(b) shared-token ratio — is symmetric in the two texts, but the code's
overlap count takes multiplicities from its first argument only:
`"a a a b"` vs `"a c d e"` is judged similar one way round and dissimilar
the other way round, and the spec-worded rule (`specSimilarRule`, distinct
shared tokens) disagrees with the code on this pair. -/
theorem C4_counterexample :
    areSimilarReviews ("a a a b") ("a c d e") = true ∧
    areSimilarReviews ("a c d e") ("a a a b") = false ∧
    specSimilarRule ("a a a b") ("a c d e") = false := by decide

/-! ### Claim C6 -/

/-- The keep-predicate of the ingestion filter, characterized by the three
drop rules as the spec words them: lowercased text shorter than 10 (UTF-16)
units, exact stoplist membership, or fewer than five `a`-`z` characters. -/
theorem keepForAnalysis_iff (r : DBReview) :
    keepForAnalysis r = true ↔
      ¬ (jsStrLen (jsToLower (r.original_text.getD "")) < 10 ∨
         jsToLower (r.original_text.getD "") ∈ spamPatterns ∨
         (jsToLower (r.original_text.getD "")).toList.countP
           (fun c => 'a' ≤ c && c ≤ 'z') < 5) := by
  unfold keepForAnalysis
  dsimp only
  split_ifs with h1 h2 h3
  · simp [h1]
  · have hb : jsToLower (r.original_text.getD "") ∈ spamPatterns := by
      rcases List.any_eq_true.mp h2 with ⟨p, hp, he⟩
      rw [decide_eq_true_eq] at he
      rw [he]
      exact hp
    simp [hb]
  · have hc : (jsToLower (r.original_text.getD "")).toList.countP
        (fun c => 'a' ≤ c && c ≤ 'z') < 5 := by
      rw [List.countP_eq_length_filter]
      exact h3
    simp [hc]
    exact fun _ _ => hc
  · have hb : jsToLower (r.original_text.getD "") ∉ spamPatterns := by
      intro hmem
      exact h2 (List.any_eq_true.mpr ⟨_, hmem, by simp⟩)
    have hc : ¬ ((jsToLower (r.original_text.getD "")).toList.countP
        (fun c => 'a' ≤ c && c ≤ 'z') < 5) := by
      rw [List.countP_eq_length_filter]
      exact h3
    simp [h1, hb, hc]
    exact Nat.le_of_not_lt hc

/-- Claim C6, confirmed.  The ingestion filter is order-preserving (its
output is a sublist of its input), keeps exactly the reviews violating none
of the three drop rules, and is idempotent. -/
theorem C6_filter_exact_and_idempotent (reviews : List DBReview) :
    List.Sublist (filterReviewsForAnalysis reviews) reviews ∧
    (∀ r, r ∈ filterReviewsForAnalysis reviews ↔ r ∈ reviews ∧
      ¬ (jsStrLen (jsToLower (r.original_text.getD "")) < 10 ∨
         jsToLower (r.original_text.getD "") ∈ spamPatterns ∨
         (jsToLower (r.original_text.getD "")).toList.countP
           (fun c => 'a' ≤ c && c ≤ 'z') < 5)) ∧
    filterReviewsForAnalysis (filterReviewsForAnalysis reviews) =
      filterReviewsForAnalysis reviews := by
  refine ⟨List.filter_sublist _, ?_, ?_⟩
  · intro r
    rw [filterReviewsForAnalysis, List.mem_filter, keepForAnalysis_iff]
  · simp [filterReviewsForAnalysis, List.filter_filter]

/-! ### Claim C8 -/

/-- Invariant of the polling loop, by induction on the remaining attempt
budget: bounded attempts, trichotomous outcome with the exact error
strings, every wait is the backoff wait of some pending attempt, and a
successful return carries the payload of an attempt that reported
HTTP 200 / `Success` (resp. a failure return stems from a `Failed`
report). -/
theorem pollGo_spec (responses : Nat → PollAttempt) (maxAttempts : Nat) :
    ∀ left, left ≤ maxAttempts →
    (pollGo responses maxAttempts left).attempts ≤ left ∧
    ((pollGo responses maxAttempts left).success = true ∧
       (pollGo responses maxAttempts left).data.isSome = true ∧
       (pollGo responses maxAttempts left).error = none ∨
     (pollGo responses maxAttempts left).success = false ∧
       (pollGo responses maxAttempts left).data = none ∧
       ((pollGo responses maxAttempts left).error = some ("Outscraper processing failed") ∨
        (pollGo responses maxAttempts left).error = some ("Polling timeout - results not ready") ∨
        (pollGo responses maxAttempts left).error = some ("Polling timeout - max attempts reached"))) ∧
    (∀ w ∈ (pollGo responses maxAttempts left).waits, ∃ k r2,
       1 ≤ k ∧ k ≤ maxAttempts ∧ responses k = .resp r2 ∧
       ¬ (r2.httpStatus = 200 ∧ r2.dataStatus = "Success") ∧
       r2.dataStatus ≠ "Failed" ∧ w = min (5000 * (k : ℚ)) 30000) ∧
    ((pollGo responses maxAttempts left).success = true → ∃ k p,
       1 ≤ k ∧ k ≤ maxAttempts ∧ responses k = .resp ⟨200, "Success", p⟩ ∧
       (pollGo responses maxAttempts left).data = some p) ∧
    ((pollGo responses maxAttempts left).error = some ("Outscraper processing failed") →
       ∃ k r2, 1 ≤ k ∧ k ≤ maxAttempts ∧ responses k = .resp r2 ∧
         r2.dataStatus = "Failed")
  | 0, _ => by
    refine ⟨le_refl _, Or.inr ⟨rfl, rfl, Or.inr (Or.inr rfl)⟩, ?_, ?_, ?_⟩
    · intro w hw
      simp [pollGo] at hw
    · intro hs
      simp [pollGo] at hs
    · intro he
      simp [pollGo] at he
  | left + 1, hle => by
    have hattle : 1 ≤ maxAttempts - left ∧ maxAttempts - left ≤ maxAttempts := by
      omega
    have ih := pollGo_spec responses maxAttempts left (by omega)
    rw [pollGo]
    cases hresp : responses (maxAttempts - left) with
    | resp r =>
      dsimp only
      by_cases hsucc : (r.httpStatus = 200 && r.dataStatus = "Success") = true
      · rw [if_pos hsucc]
        simp only [Bool.and_eq_true, decide_eq_true_eq] at hsucc
        refine ⟨by dsimp only; omega, Or.inl ⟨rfl, rfl, rfl⟩, ?_, ?_, ?_⟩
        · intro w hw
          simp at hw
        · intro _
          refine ⟨maxAttempts - left, r.payload, hattle.1, hattle.2, ?_, rfl⟩
          rw [hresp]
          congr 1
          cases r
          simp only at hsucc
          simp [hsucc.1, hsucc.2]
        · intro he
          simp at he
      · rw [if_neg hsucc]
        by_cases hfail : (r.dataStatus = "Failed")
        · rw [if_pos (by simp [hfail])]
          refine ⟨by dsimp only; omega, Or.inr ⟨rfl, rfl, Or.inl rfl⟩, ?_, ?_, ?_⟩
          · intro w hw
            simp at hw
          · intro hs
            simp at hs
          · intro _
            exact ⟨maxAttempts - left, r, hattle.1, hattle.2, hresp, hfail⟩
        · rw [if_neg (by simp [hfail])]
          obtain ⟨iha, iho, ihw, ihs, ihf⟩ := ih
          refine ⟨by simpa using Nat.add_le_add_right iha 1, by simpa using iho, ?_,
            ?_, ?_⟩
          · intro w hw
            simp only [List.mem_cons] at hw
            rcases hw with hw | hw
            · refine ⟨maxAttempts - left, r, hattle.1, hattle.2, hresp, ?_, hfail, hw⟩
              simpa [Bool.and_eq_true, decide_eq_true_eq] using hsucc
            · exact ihw w hw
          · intro hs
            exact ihs (by simpa using hs)
          · intro he
            exact ihf (by simpa using he)
    | exn =>
      dsimp only
      by_cases hz : left = 0
      · rw [if_pos hz]
        refine ⟨by dsimp only; omega, Or.inr ⟨rfl, rfl, Or.inr (Or.inl rfl)⟩, ?_, ?_, ?_⟩
        · intro w hw
          simp at hw
        · intro hs
          simp at hs
        · intro he
          simp at he
      · rw [if_neg hz]
        obtain ⟨iha, iho, ihw, ihs, ihf⟩ := ih
        refine ⟨by simpa using Nat.add_le_add_right iha 1, by simpa using iho, ?_, ?_, ?_⟩
        · intro w hw
          exact ihw w (by simpa using hw)
        · intro hs
          exact ihs (by simpa using hs)
        · intro he
          exact ihf (by simpa using he)

/-- Claim C8, confirmed.  For every behaviour of the polling endpoint,
`pollForResults` with the default budget terminates within 12 attempts and
ends in exactly one of three outcomes: success carrying the payload of an
attempt that reported HTTP 200/`Success`; the processing-failed error, only
when some attempt reported `Failed`; or a polling-timeout error.  Every
wait it sleeps is `min(5000 · attempt, 30000)` ms for a still-pending
attempt. -/
theorem C8_poll_terminates_bounded (responses : Nat → PollAttempt) :
    (pollForResults responses 12).attempts ≤ 12 ∧
    ((pollForResults responses 12).success = true ∧
       (pollForResults responses 12).data.isSome = true ∧
       (pollForResults responses 12).error = none ∨
     (pollForResults responses 12).success = false ∧
       (pollForResults responses 12).data = none ∧
       ((pollForResults responses 12).error = some ("Outscraper processing failed") ∨
        (pollForResults responses 12).error = some ("Polling timeout - results not ready") ∨
        (pollForResults responses 12).error = some ("Polling timeout - max attempts reached"))) ∧
    (∀ w ∈ (pollForResults responses 12).waits, ∃ k r2,
       1 ≤ k ∧ k ≤ 12 ∧ responses k = .resp r2 ∧
       ¬ (r2.httpStatus = 200 ∧ r2.dataStatus = "Success") ∧
       r2.dataStatus ≠ "Failed" ∧ w = min (5000 * (k : ℚ)) 30000) ∧
    ((pollForResults responses 12).success = true → ∃ k p,
       1 ≤ k ∧ k ≤ 12 ∧ responses k = .resp ⟨200, "Success", p⟩ ∧
       (pollForResults responses 12).data = some p) ∧
    ((pollForResults responses 12).error = some ("Outscraper processing failed") →
       ∃ k r2, 1 ≤ k ∧ k ≤ 12 ∧ responses k = .resp r2 ∧ r2.dataStatus = "Failed") :=
  pollGo_spec responses 12 12 (le_refl 12)

/-! ### The window loop (claims C2, C7, C10) -/

theorem chunksOf_eq_nil_iff (c : Nat) (l : List α) :
    chunksOf c l = [] ↔ l = [] := by
  cases l <;> simp [chunksOf]

/-- For a positive chunk size, the chunks concatenate back to the input,
every chunk has at most `c` elements, and every chunk except possibly the
last has exactly `c` elements. -/
theorem chunksOf_spec (c : Nat) (hc : 1 ≤ c) :
    ∀ n (l : List α), l.length ≤ n →
    (chunksOf c l).flatten = l ∧
    (∀ w ∈ chunksOf c l, w.length ≤ c) ∧
    (∀ w ∈ (chunksOf c l).dropLast, w.length = c)
  | n, [], _ => by simp [chunksOf]
  | 0, x :: xs, h => by simp at h
  | n + 1, x :: xs, h => by
    have hlen : (xs.drop (c - 1)).length ≤ n := by
      have := List.length_drop (c - 1) xs
      simp only [List.length_cons] at h
      omega
    obtain ⟨ihj, ihb, ihl⟩ := chunksOf_spec c hc n (xs.drop (c - 1)) hlen
    refine ⟨?_, ?_, ?_⟩
    · simp only [chunksOf, List.flatten_cons, ihj, List.cons_append]
      rw [List.take_append_drop]
    · intro w hw
      simp only [chunksOf, List.mem_cons] at hw
      rcases hw with rfl | hw
      · simp only [List.length_cons]
        have := List.length_take_le (c - 1) xs
        omega
      · exact ihb w hw
    · intro w hw
      by_cases hnil : chunksOf c (xs.drop (c - 1)) = []
      · simp [chunksOf, hnil] at hw
      · rw [chunksOf, List.dropLast_cons_of_ne_nil hnil] at hw
        rcases List.mem_cons.mp hw with rfl | hw
        · have hxs : c - 1 ≤ xs.length := by
            by_contra hlt
            push_neg at hlt
            exact hnil ((chunksOf_eq_nil_iff c _).mpr
              (List.drop_eq_nil_of_le (by omega)))
          simp only [List.length_cons, List.length_take]
          omega
        · exact ihl w hw

/-- The per-item wrapper preserves the review id. -/
theorem runBatchItem_id (call : ReviewInput → Except String ReviewAnalysisResult)
    (r : ReviewInput) : (runBatchItem call r).id = r.id := by
  unfold runBatchItem
  cases call r <;> rfl

/-- One unfolding of `chunksOf` on a non-empty list. -/
theorem chunksOf_cons_take_drop (c : Nat) (hc : 1 ≤ c) (l : List α) (hne : l ≠ []) :
    chunksOf c l = l.take c :: chunksOf c (l.drop c) := by
  cases l with
  | nil => exact absurd rfl hne
  | cons x xs =>
    rw [chunksOf]
    obtain ⟨c0, rfl⟩ : ∃ c0, c = c0 + 1 := ⟨c - 1, by omega⟩
    simp

theorem expectedTrace_singleton (d : ℚ) (w : List String) :
    expectedTrace d [w] = [.window w] := rfl

theorem expectedTrace_cons_of_ne (d : ℚ) (w : List String) (ws : List (List String))
    (h : ws ≠ []) :
    expectedTrace d (w :: ws) = .window w :: .delay d :: expectedTrace d ws := by
  cases ws with
  | nil => exact absurd rfl h
  | cons a b => rfl

/-- Closed form of the window loop for a positive concurrency and a
sufficient iteration budget: it returns the per-item results of the
remaining suffix in input order, and the expected window/delay trace of
that suffix's chunks. -/
theorem batchWindowedGo_eq (call : ReviewInput → Except String ReviewAnalysisResult)
    (d : ℚ) (reviews : List ReviewInput) (c : Nat) (hc : 1 ≤ c) :
    ∀ fuel i, reviews.length - i < fuel →
    batchWindowedGo call d reviews c fuel i =
      some ((reviews.drop i).map (runBatchItem call),
        expectedTrace d ((chunksOf c (reviews.drop i)).map (List.map ReviewInput.id)))
  | 0, i, h => by omega
  | fuel + 1, i, h => by
    have hdc : reviews.drop (i + c) = (reviews.drop i).drop c := by
      rw [List.drop_drop]
    rw [batchWindowedGo]
    by_cases hi : i < reviews.length
    · rw [if_pos hi]
      have hrec := batchWindowedGo_eq call d reviews c hc fuel (i + c) (by omega)
      rw [hrec]
      dsimp only
      have hLne : reviews.drop i ≠ [] := by
        intro hnil
        have hlen := congrArg List.length hnil
        simp only [List.length_drop, List.length_nil] at hlen
        omega
      have hchunk := chunksOf_cons_take_drop c hc (reviews.drop i) hLne
      by_cases hlast : i + c < reviews.length
      · rw [if_pos hlast]
        have hDne : (reviews.drop i).drop c ≠ [] := by
          intro hnil
          have hlen := congrArg List.length hnil
          simp only [List.length_drop, List.length_nil] at hlen
          omega
        have hCne : (chunksOf c ((reviews.drop i).drop c)).map
            (List.map ReviewInput.id) ≠ [] := by
          simp only [ne_eq, List.map_eq_nil_iff, chunksOf_eq_nil_iff]
          exact hDne
        obtain ⟨w0, ws, hws⟩ := List.exists_cons_of_ne_nil hCne
        rw [hdc, hchunk]
        simp only [List.map_cons]
        rw [hws, expectedTrace_cons_of_ne d _ (w0 :: ws) (by simp)]
        congr 1
        congr 1
        rw [← List.map_append, List.take_append_drop]
      · rw [if_neg hlast]
        have hDnil : (reviews.drop i).drop c = [] := by
          apply List.drop_eq_nil_of_le
          simp only [List.length_drop]
          omega
        have htake : (reviews.drop i).take c = reviews.drop i := by
          apply List.take_of_length_le
          simp only [List.length_drop]
          omega
        rw [hdc, hDnil, hchunk, hDnil, htake]
        simp [chunksOf, expectedTrace]
    · rw [if_neg hi]
      have hnil : reviews.drop i = [] := List.drop_eq_nil_of_le (by omega)
      rw [hnil]
      simp [chunksOf, expectedTrace]

/-- Closed form of `batchAnalyzeReviewsFast` for a positive concurrency. -/
theorem batchAnalyzeReviewsFast_eq
    (call : ReviewInput → Except String ReviewAnalysisResult)
    (reviews : List ReviewInput) (c : Nat) (hc : 1 ≤ c) :
    batchAnalyzeReviewsFast call reviews c =
      some (reviews.map (runBatchItem call),
        expectedTrace 500 ((chunksOf c reviews).map (List.map ReviewInput.id))) := by
  unfold batchAnalyzeReviewsFast
  have := batchWindowedGo_eq call 500 reviews c hc (reviews.length + 1) 0 (by omega)
  simpa using this

/-- Closed form of `batchAnalyzeReviewsUltraFast` for a positive
concurrency. -/
theorem batchAnalyzeReviewsUltraFast_eq
    (call : ReviewInput → Except String ReviewAnalysisResult)
    (reviews : List ReviewInput) (c : Nat) (hc : 1 ≤ c) :
    batchAnalyzeReviewsUltraFast call reviews c =
      some (reviews.map (runBatchItem call),
        expectedTrace 200 ((chunksOf c reviews).map (List.map ReviewInput.id))) := by
  unfold batchAnalyzeReviewsUltraFast
  have := batchWindowedGo_eq call 200 reviews c hc (reviews.length + 1) 0 (by omega)
  simpa using this

/-- The windowed results carry exactly the input ids, in order. -/
theorem windowResults_ids (call : ReviewInput → Except String ReviewAnalysisResult)
    (reviews : List ReviewInput) :
    (reviews.map (runBatchItem call)).map IdAnalysis.id = reviews.map ReviewInput.id := by
  rw [List.map_map]
  exact List.map_congr_left (fun r _ => runBatchItem_id call r)

/-- The sequential batch preserves ids in order whenever the per-item call
cannot reject (which is the case for `analyzeReview`: it catches every
internal failure). -/
theorem batchAnalyzeReviews_ids (call : ReviewInput → Except String ReviewAnalysisResult)
    (h : ∀ r, ∃ a, call r = .ok a) :
    ∀ reviews, (batchAnalyzeReviews call reviews).map IdAnalysis.id =
      reviews.map ReviewInput.id
  | [] => rfl
  | r :: rest => by
    rw [batchAnalyzeReviews]
    obtain ⟨a, ha⟩ := h r
    rw [ha]
    simp only [List.map_cons]
    rw [batchAnalyzeReviews_ids call h rest]

/-! ### Claims C10, C2, C7 -/

/-- Claim C10, confirmed (stated for positive concurrency; the claim is
silent on the parameter and every caller passes 5, 10 or 15).  All three
batch operations return their results in exactly the input order: the
output id sequence equals the input id sequence.  For the windowed
variants the per-item call oracle is arbitrary (items may reject); the
sequential variant calls `analyzeReview`, which never rejects. -/
theorem C10_batch_order (call call2 : ReviewInput → Except String ReviewAnalysisResult)
    (llm : String → LLMOutcome) (reviews : List ReviewInput) (c c2 : Nat)
    (hc : 1 ≤ c) (hc2 : 1 ≤ c2) :
    (∃ out trace, batchAnalyzeReviewsFast call reviews c = some (out, trace) ∧
      out.map IdAnalysis.id = reviews.map ReviewInput.id) ∧
    (∃ out trace, batchAnalyzeReviewsUltraFast call2 reviews c2 = some (out, trace) ∧
      out.map IdAnalysis.id = reviews.map ReviewInput.id) ∧
    (batchAnalyzeReviews (analysisCall llm) reviews).map IdAnalysis.id =
      reviews.map ReviewInput.id :=
  ⟨⟨_, _, batchAnalyzeReviewsFast_eq call reviews c hc, windowResults_ids call reviews⟩,
   ⟨_, _, batchAnalyzeReviewsUltraFast_eq call2 reviews c2 hc2, windowResults_ids call2 reviews⟩,
   batchAnalyzeReviews_ids (analysisCall llm) (fun _ => ⟨_, rfl⟩) reviews⟩

/-- Witness for C10 at a concrete two-review batch with the default
concurrencies, a rejecting oracle and a failing LLM. -/
theorem C10_witness :
    (1 : Nat) ≤ 5 ∧ (1 : Nat) ≤ 15 ∧
    ((∃ out trace, batchAnalyzeReviewsFast (fun r => .error ("boom"))
        [⟨"a", "first text", none⟩, ⟨"b", "second text", some 4⟩] 5 = some (out, trace) ∧
      out.map IdAnalysis.id =
        ([⟨"a", "first text", none⟩, ⟨"b", "second text", some 4⟩] :
          List ReviewInput).map ReviewInput.id) ∧
    (∃ out trace, batchAnalyzeReviewsUltraFast (fun r => .error ("boom"))
        [⟨"a", "first text", none⟩, ⟨"b", "second text", some 4⟩] 15 = some (out, trace) ∧
      out.map IdAnalysis.id =
        ([⟨"a", "first text", none⟩, ⟨"b", "second text", some 4⟩] :
          List ReviewInput).map ReviewInput.id) ∧
    (batchAnalyzeReviews (analysisCall (fun _ => .failure))
        [⟨"a", "first text", none⟩, ⟨"b", "second text", some 4⟩]).map IdAnalysis.id =
      ([⟨"a", "first text", none⟩, ⟨"b", "second text", some 4⟩] :
        List ReviewInput).map ReviewInput.id) :=
  ⟨by norm_num, by norm_num,
   C10_batch_order (fun _ => .error ("boom")) (fun _ => .error ("boom"))
     (fun _ => .failure) _ 5 15 (by norm_num) (by norm_num)⟩

/-- Claim C2, amended (restricted to concurrency ≥ 1, see the
counterexample for concurrency 0).  Each batch operation returns exactly
one result per input id — the multiset of output ids equals the multiset
of input ids, so nothing is dropped or duplicated however many per-item
calls fail — and a windowed item whose call rejects contributes its
fallback analysis under its own id. -/
theorem C2_batch_exactly_once
    (call call2 : ReviewInput → Except String ReviewAnalysisResult)
    (llm : String → LLMOutcome) (reviews : List ReviewInput) (c c2 : Nat)
    (hc : 1 ≤ c) (hc2 : 1 ≤ c2) :
    (∃ out trace, batchAnalyzeReviewsFast call reviews c = some (out, trace) ∧
      (∀ s, (out.map IdAnalysis.id).count s = (reviews.map ReviewInput.id).count s) ∧
      (∀ r ∈ reviews, ∀ e, call r = .error e →
        (⟨r.id, createFallbackAnalysis r.text r.rating⟩ : IdAnalysis) ∈ out)) ∧
    (∃ out trace, batchAnalyzeReviewsUltraFast call2 reviews c2 = some (out, trace) ∧
      (∀ s, (out.map IdAnalysis.id).count s = (reviews.map ReviewInput.id).count s) ∧
      (∀ r ∈ reviews, ∀ e, call2 r = .error e →
        (⟨r.id, createFallbackAnalysis r.text r.rating⟩ : IdAnalysis) ∈ out)) ∧
    (∀ s, ((batchAnalyzeReviews (analysisCall llm) reviews).map IdAnalysis.id).count s =
      (reviews.map ReviewInput.id).count s) := by
  refine ⟨⟨_, _, batchAnalyzeReviewsFast_eq call reviews c hc, ?_, ?_⟩,
    ⟨_, _, batchAnalyzeReviewsUltraFast_eq call2 reviews c2 hc2, ?_, ?_⟩, ?_⟩
  · intro s
    rw [windowResults_ids]
  · intro r hr e he
    refine List.mem_map.mpr ⟨r, hr, ?_⟩
    rw [runBatchItem, he]
  · intro s
    rw [windowResults_ids]
  · intro r hr e he
    refine List.mem_map.mpr ⟨r, hr, ?_⟩
    rw [runBatchItem, he]
  · intro s
    rw [batchAnalyzeReviews_ids (analysisCall llm) (fun _ => ⟨_, rfl⟩)]

/-- Witness for C2 at a concrete batch where the first item's call
rejects. -/
theorem C2_witness :
    (1 : Nat) ≤ 10 ∧ (1 : Nat) ≤ 10 ∧
    ((∃ out trace, batchAnalyzeReviewsFast
        (fun r => if r.id = "a" then .error ("boom") else
          .ok (createFallbackAnalysis r.text r.rating))
        [⟨"a", "first text", none⟩, ⟨"b", "second text", some 4⟩] 10 = some (out, trace) ∧
      (∀ s, (out.map IdAnalysis.id).count s =
        (([⟨"a", "first text", none⟩, ⟨"b", "second text", some 4⟩] :
          List ReviewInput).map ReviewInput.id).count s) ∧
      (∀ r ∈ ([⟨"a", "first text", none⟩, ⟨"b", "second text", some 4⟩] :
          List ReviewInput), ∀ e,
        (if r.id = "a" then Except.error ("boom") else
          Except.ok (createFallbackAnalysis r.text r.rating)) = .error e →
        (⟨r.id, createFallbackAnalysis r.text r.rating⟩ : IdAnalysis) ∈ out)) ∧
    (∃ out trace, batchAnalyzeReviewsUltraFast
        (fun r => if r.id = "a" then .error ("boom") else
          .ok (createFallbackAnalysis r.text r.rating))
        [⟨"a", "first text", none⟩, ⟨"b", "second text", some 4⟩] 10 = some (out, trace) ∧
      (∀ s, (out.map IdAnalysis.id).count s =
        (([⟨"a", "first text", none⟩, ⟨"b", "second text", some 4⟩] :
          List ReviewInput).map ReviewInput.id).count s) ∧
      (∀ r ∈ ([⟨"a", "first text", none⟩, ⟨"b", "second text", some 4⟩] :
          List ReviewInput), ∀ e,
        (if r.id = "a" then Except.error ("boom") else
          Except.ok (createFallbackAnalysis r.text r.rating)) = .error e →
        (⟨r.id, createFallbackAnalysis r.text r.rating⟩ : IdAnalysis) ∈ out)) ∧
    (∀ s, ((batchAnalyzeReviews (analysisCall (fun _ => .failure))
        [⟨"a", "first text", none⟩, ⟨"b", "second text", some 4⟩]).map
          IdAnalysis.id).count s =
      (([⟨"a", "first text", none⟩, ⟨"b", "second text", some 4⟩] :
        List ReviewInput).map ReviewInput.id).count s)) :=
  ⟨by norm_num, by norm_num,
   C2_batch_exactly_once
     (fun r => if r.id = "a" then .error ("boom") else
       .ok (createFallbackAnalysis r.text r.rating))
     (fun r => if r.id = "a" then .error ("boom") else
       .ok (createFallbackAnalysis r.text r.rating))
     (fun _ => .failure) _ 10 10 (by norm_num) (by norm_num)⟩

/-- Counterexample to C2 as stated: at concurrency 0 (the claim quantifies
over "every concurrency value") the window loop never advances its index,
so the batch never returns any list at all — modelled as divergence for
every iteration budget. -/
theorem C2_counterexample :
    batchLoopDiverges (fun r => .ok (createFallbackAnalysis r.text r.rating)) 500
      [⟨"r1", "great product, loved it", none⟩] 0 ∧
    batchLoopDiverges (fun r => .ok (createFallbackAnalysis r.text r.rating)) 200
      [⟨"r1", "great product, loved it", none⟩] 0 ∧
    batchAnalyzeReviewsFast (fun r => .ok (createFallbackAnalysis r.text r.rating))
      [⟨"r1", "great product, loved it", none⟩] 0 = none ∧
    batchAnalyzeReviewsUltraFast (fun r => .ok (createFallbackAnalysis r.text r.rating))
      [⟨"r1", "great product, loved it", none⟩] 0 = none := by
  have hdiv : ∀ (d : ℚ), batchLoopDiverges
      (fun r => .ok (createFallbackAnalysis r.text r.rating)) d
      [⟨"r1", "great product, loved it", none⟩] 0 := by
    intro d fuel
    induction fuel with
    | zero => rfl
    | succ n ih =>
      rw [batchWindowedGo, if_pos (by simp)]
      simp only [Nat.add_zero]
      rw [ih]
  exact ⟨hdiv 500, hdiv 200, hdiv 500 _, hdiv 200 _⟩

/-- Claim C7, confirmed (stated for concurrency ≥ 1, which every caller
satisfies).  In the cooperative event-loop model, the observable trace of
both windowed batch engines is exactly: the input partitioned into
consecutive windows — every window of size `concurrency` except a possibly
smaller final one — where each window event stands for its requests being
issued concurrently and awaited together (`Promise.all`), and exactly one
pacing delay lies between consecutive windows: 500 ms in the fast engine
and the shorter 200 ms in the ultra-fast engine.  Window N+1's event can
only follow the delay that follows window N's barrier, so at no point are
more than `concurrency` analyses in flight. -/
theorem C7_windowed_schedule
    (call call2 : ReviewInput → Except String ReviewAnalysisResult)
    (reviews : List ReviewInput) (c : Nat) (hc : 1 ≤ c) :
    batchAnalyzeReviewsFast call reviews c =
      some (reviews.map (runBatchItem call),
        expectedTrace 500 ((chunksOf c reviews).map (List.map ReviewInput.id))) ∧
    batchAnalyzeReviewsUltraFast call2 reviews c =
      some (reviews.map (runBatchItem call2),
        expectedTrace 200 ((chunksOf c reviews).map (List.map ReviewInput.id))) ∧
    (chunksOf c reviews).flatten = reviews ∧
    (∀ w ∈ chunksOf c reviews, w.length ≤ c) ∧
    (∀ w ∈ (chunksOf c reviews).dropLast, w.length = c) ∧
    (200 : ℚ) < 500 := by
  obtain ⟨hj, hb, hl⟩ := chunksOf_spec c hc reviews.length reviews (le_refl _)
  exact ⟨batchAnalyzeReviewsFast_eq call reviews c hc,
    batchAnalyzeReviewsUltraFast_eq call2 reviews c hc, hj, hb, hl, by norm_num⟩

/-- Witness for C7: three concrete reviews at concurrency 2 — two windows,
one delay between them. -/
theorem C7_witness :
    (1 : Nat) ≤ 2 ∧
    (batchAnalyzeReviewsFast (fun r => .error ("down"))
        [⟨"a", "t1", none⟩, ⟨"b", "t2", none⟩, ⟨"c", "t3", none⟩] 2 =
      some (([⟨"a", "t1", none⟩, ⟨"b", "t2", none⟩, ⟨"c", "t3", none⟩] :
          List ReviewInput).map (runBatchItem (fun r => .error ("down"))),
        expectedTrace 500 ((chunksOf 2 [⟨"a", "t1", none⟩, ⟨"b", "t2", none⟩,
          ⟨"c", "t3", none⟩]).map (List.map ReviewInput.id))) ∧
      batchAnalyzeReviewsUltraFast (fun r => .error ("down"))
        [⟨"a", "t1", none⟩, ⟨"b", "t2", none⟩, ⟨"c", "t3", none⟩] 2 =
      some (([⟨"a", "t1", none⟩, ⟨"b", "t2", none⟩, ⟨"c", "t3", none⟩] :
          List ReviewInput).map (runBatchItem (fun r => .error ("down"))),
        expectedTrace 200 ((chunksOf 2 [⟨"a", "t1", none⟩, ⟨"b", "t2", none⟩,
          ⟨"c", "t3", none⟩]).map (List.map ReviewInput.id))) ∧
      (chunksOf 2 [(⟨"a", "t1", none⟩ : ReviewInput), ⟨"b", "t2", none⟩,
        ⟨"c", "t3", none⟩]).flatten =
        [⟨"a", "t1", none⟩, ⟨"b", "t2", none⟩, ⟨"c", "t3", none⟩] ∧
      (∀ w ∈ chunksOf 2 [(⟨"a", "t1", none⟩ : ReviewInput), ⟨"b", "t2", none⟩,
        ⟨"c", "t3", none⟩], w.length ≤ 2) ∧
      (∀ w ∈ (chunksOf 2 [(⟨"a", "t1", none⟩ : ReviewInput), ⟨"b", "t2", none⟩,
        ⟨"c", "t3", none⟩]).dropLast, w.length = 2) ∧
      (200 : ℚ) < 500) :=
  ⟨by norm_num,
   C7_windowed_schedule (fun _ => .error ("down")) (fun _ => .error ("down"))
     [⟨"a", "t1", none⟩, ⟨"b", "t2", none⟩, ⟨"c", "t3", none⟩] 2 (by norm_num)⟩

/-! ### Claim C5 -/

/-- Claim C5, amended.  The merged output never exceeds the sum of the two
providers' list lengths, and it is exactly the kept structured-API reviews
followed by those scraped reviews that are not judged similar (by
`areSimilarReviews(api_text, scraped_text)`) to any kept API review.  The
amendment weakens "no two records in the output are similar": API records
are kept wholesale without mutual deduplication and the scraped survivors
are not deduplicated against each other, so only API-vs-scraped pairs are
guaranteed dissimilar (see the counterexample). -/
theorem C5_hybrid_merge (placesResult scrapingResult : ProviderResult)
    (insertOk : Bool) :
    (scrapeAllReviewsHybrid placesResult scrapingResult insertOk).reviews.length ≤
      (placesResult.reviews.getD []).length + (scrapingResult.reviews.getD []).length ∧
    (∃ extra,
      (scrapeAllReviewsHybrid placesResult scrapingResult insertOk).reviews =
        (if placesResult.success && placesResult.reviews.isSome then
          placesResult.reviews.getD [] else []) ++ extra ∧
      (∀ r ∈ extra, r ∈ scrapingResult.reviews.getD [] ∧
        ∀ e ∈ (if placesResult.success && placesResult.reviews.isSome then
            placesResult.reviews.getD [] else []),
          areSimilarReviews e.original_text r.original_text = false)) := by
  unfold scrapeAllReviewsHybrid
  dsimp only
  set pk := (if placesResult.success && placesResult.reviews.isSome then
    placesResult.reviews.getD [] else []) with hpk
  set scraped := scrapingResult.reviews.getD [] with hscr
  set F := scraped.filter (fun sr =>
    !(pk.any fun er => areSimilarReviews er.original_text sr.original_text)) with hF
  have hpkle : pk.length ≤ (placesResult.reviews.getD []).length := by
    rw [hpk]
    split_ifs with h
    · exact le_refl _
    · simp
  have hFle : F.length ≤ scraped.length := by
    rw [hF]
    exact List.length_filter_le _ _
  split_ifs with hg hn hins
  · refine ⟨?_, F, rfl, ?_⟩
    · rw [List.length_append]
      omega
    · intro r hr
      rw [hF] at hr
      have hmem := List.mem_filter.mp hr
      refine ⟨hmem.1, ?_⟩
      intro e he
      have hany : (pk.any fun er =>
          areSimilarReviews er.original_text r.original_text) = false := by
        have h2 := hmem.2
        rwa [Bool.not_eq_true'] at h2
      exact Bool.eq_false_iff.mpr (List.any_eq_false.mp hany e he)
  · exact ⟨by omega, [], by simp, by simp⟩
  · exact ⟨by omega, [], by simp, by simp⟩
  · exact ⟨by omega, [], by simp, by simp⟩

/-- Counterexample to C5 as stated: with no API reviews and two identical
scraped reviews, both copies are kept, so the merged output contains two
records that the similarity rule judges similar. -/
theorem C5_counterexample :
    (scrapeAllReviewsHybrid ⟨true, some []⟩
      ⟨true, some [⟨"great coffee here", 5⟩, ⟨"great coffee here", 5⟩]⟩
      true).reviews =
      [⟨"great coffee here", 5⟩, ⟨"great coffee here", 5⟩] ∧
    areSimilarReviews ("great coffee here") ("great coffee here") = true := by
  constructor
  · rfl
  · decide

/-! ### Route lemmas (claims C3 and C9) -/

/-- A window event in the expected trace names one of the traced
windows. -/
theorem expectedTrace_window_mem (d : ℚ) : ∀ (W : List (List String)) (ids : List String),
    BatchEv.window ids ∈ expectedTrace d W → ids ∈ W
  | [], ids => by simp [expectedTrace]
  | [w], ids => by simp [expectedTrace]
  | w :: x :: ws, ids => by
    intro h
    have he : expectedTrace d (w :: x :: ws) =
        .window w :: .delay d :: expectedTrace d (x :: ws) := rfl
    rw [he] at h
    simp only [List.mem_cons] at h
    rcases h with h | h | h
    · cases h
      exact List.mem_cons_self _ _
    · exact absurd h (by simp)
    · exact List.mem_cons_of_mem _ (expectedTrace_window_mem d (x :: ws) ids h)

/-- The persistence loop emits no LLM-window events. -/
theorem insertLoop_no_window (f : String → Bool) : ∀ (l : List IdAnalysis) (n : Nat)
    (ids : List String), Ev.window ids ∉ (insertLoop f l n).2
  | [], n, ids => by simp [insertLoop]
  | r :: rest, n, ids => by
    rw [insertLoop]
    split_ifs with hf hp
    · simp only [List.mem_cons, not_or]
      exact ⟨by simp, insertLoop_no_window f rest n ids⟩
    · simp only [List.cons_append, List.singleton_append, List.mem_cons, not_or]
      exact ⟨by simp, by simp, insertLoop_no_window f rest (n + 1) ids⟩
    · simp only [List.nil_append, List.cons_append, List.mem_cons, not_or]
      exact ⟨by simp, insertLoop_no_window f rest (n + 1) ids⟩

/-- A window event among lifted batch events comes from a batch window. -/
theorem liftBatchEv_window (trace : List BatchEv) (ids : List String)
    (h : Ev.window ids ∈ trace.map liftBatchEv) : BatchEv.window ids ∈ trace := by
  obtain ⟨be, hbe, hlift⟩ := List.mem_map.mp h
  cases be with
  | window w =>
    cases hlift
    exact hbe
  | delay m => exact absurd hlift (by simp [liftBatchEv])

/-- Elements of a chunk are elements of the chunked list. -/
theorem chunksOf_mem_subset (c : Nat) (hc : 1 ≤ c) (l : List α) (w : List α)
    (hw : w ∈ chunksOf c l) : ∀ x ∈ w, x ∈ l := by
  intro x hx
  obtain ⟨hj, -, -⟩ := chunksOf_spec c hc l.length l (le_refl _)
  rw [← hj]
  exact List.mem_flatten.mpr ⟨w, hw, hx⟩

/-- Closed form of the analysis route on its main path (some unanalyzed
review survives the filter): status goes to `processing`, the windowed
batch runs at concurrency 10, results are persisted with periodic progress
writes, and the final write sets `completed` with the insert-success
count. -/
theorem runAnalysisRoute_main_eq (rs : List DBReview) (llm : String → LLMOutcome)
    (insertFails : String → Bool) (hne : ¬ rs.length = 0)
    (hf : ¬ (filterReviewsForAnalysis (rs.filter (fun r => !r.hasAnalysis))).length = 0) :
    runAnalysisRoute (.ok rs) llm insertFails =
      ({ httpStatus := 200, success := true
         message := some (let cnt := (insertLoop insertFails
             ((reviewsForAnalysisOf rs).map (runBatchItem (analysisCall llm))) 0).1
           let skp := (rs.filter (fun r => !r.hasAnalysis)).length -
             (filterReviewsForAnalysis (rs.filter (fun r => !r.hasAnalysis))).length
           s!"Successfully analyzed {cnt} reviews (skipped {skp} low-value reviews for faster processing)")
         reviewCount := some (insertLoop insertFails
           ((reviewsForAnalysisOf rs).map (runBatchItem (analysisCall llm))) 0).1
         skipped := none
         skippedCount := some ((rs.filter (fun r => !r.hasAnalysis)).length -
           (filterReviewsForAnalysis (rs.filter (fun r => !r.hasAnalysis))).length)
         totalReviews := some (rs.filter (fun r => !r.hasAnalysis)).length
         error := none },
       Ev.setStatus .processing ::
         ((expectedTrace 500 ((chunksOf 10 (reviewsForAnalysisOf rs)).map
             (List.map ReviewInput.id))).map liftBatchEv ++
          (insertLoop insertFails
            ((reviewsForAnalysisOf rs).map (runBatchItem (analysisCall llm))) 0).2 ++
          [Ev.setStatus .completed,
           Ev.setAnalyzed (insertLoop insertFails
             ((reviewsForAnalysisOf rs).map (runBatchItem (analysisCall llm))) 0).1])) := by
  unfold runAnalysisRoute reviewsForAnalysisOf
  dsimp only
  rw [if_neg hne, if_neg hf,
    batchAnalyzeReviewsFast_eq (analysisCall llm) _ 10 (by norm_num)]

/-- Closed form of the analysis route's early return: with no candidate
review (every review analyzed or filter-dropped), it answers success with
`reviewCount: 0`, the single lumped message, a `skipped` count — and
performs no store write and no LLM call (empty event list). -/
theorem runAnalysisRoute_earlyReturn (rs : List DBReview) (llm : String → LLMOutcome)
    (insertFails : String → Bool) (hne : ¬ rs.length = 0)
    (hf : (filterReviewsForAnalysis (rs.filter (fun r => !r.hasAnalysis))).length = 0) :
    runAnalysisRoute (.ok rs) llm insertFails =
      ({ httpStatus := 200, success := true
         message := some
           s!"All {(rs.filter (fun r => !r.hasAnalysis)).length} reviews already analyzed or filtered out"
         reviewCount := some 0
         skipped := some ((rs.filter (fun r => !r.hasAnalysis)).length -
           (filterReviewsForAnalysis (rs.filter (fun r => !r.hasAnalysis))).length)
         skippedCount := none, totalReviews := none, error := none }, []) := by
  unfold runAnalysisRoute
  dsimp only
  rw [if_neg hne, if_pos hf]

/-! ### Claim C3 -/

/-- Claim C3, amended.  (a) A scrape-backed project creation first sets the
project to `processing` and then to `completed` exactly when the scrape
reports success and `error` otherwise.  (b) An analysis run with at least
one candidate review (unanalyzed and filter-surviving) first sets
`processing` and, after the batch and persistence loop, sets `completed`.
(c) An analysis run with no candidate review performs no status update at
all and still answers success — the amendment, forced by the
counterexample: such a run neither enters `processing` nor writes
`completed`, and the analysis route never writes `error`. -/
theorem C3_status_lifecycle (u : String) (scrape : ScrapeOutcome)
    (rs : List DBReview) (llm : String → LLMOutcome) (insertFails : String → Bool) :
    (createProjectRoute true false (some u) scrape =
      ({ httpStatus := 200, success := true },
       [Ev.createPending, Ev.setStatus .processing, Ev.scrapeRun,
        Ev.setStatus (if scrape.success then .completed else .error)])) ∧
    (¬ rs.length = 0 →
      ¬ (filterReviewsForAnalysis (rs.filter (fun r => !r.hasAnalysis))).length = 0 →
      ∃ mid n, (runAnalysisRoute (.ok rs) llm insertFails).2 =
          Ev.setStatus .processing :: mid ++ [Ev.setStatus .completed, Ev.setAnalyzed n] ∧
        (runAnalysisRoute (.ok rs) llm insertFails).1.success = true ∧
        (runAnalysisRoute (.ok rs) llm insertFails).1.httpStatus = 200) ∧
    ((filterReviewsForAnalysis (rs.filter (fun r => !r.hasAnalysis))).length = 0 →
      (runAnalysisRoute (.ok rs) llm insertFails).2 = [] ∧
      (runAnalysisRoute (.ok rs) llm insertFails).1.success = true) := by
  refine ⟨rfl, ?_, ?_⟩
  · intro hne hf
    rw [runAnalysisRoute_main_eq rs llm insertFails hne hf]
    exact ⟨_, _, rfl, rfl, rfl⟩
  · intro hf0
    by_cases hne : rs.length = 0
    · unfold runAnalysisRoute
      dsimp only
      rw [if_pos hne]
      exact ⟨rfl, rfl⟩
    · rw [runAnalysisRoute_earlyReturn rs llm insertFails hne hf0]
      exact ⟨rfl, rfl⟩

/-- Witness for C3: one unanalyzed review that passes the filter yields the
processing/completed event bracket. -/
theorem C3_witness :
    ∃ mid n, (runAnalysisRoute
        (.ok [(⟨"r1", some ("this restaurant was absolutely fantastic"), some 5, false⟩ :
          DBReview)]) (fun _ => .failure) (fun _ => false)).2 =
        Ev.setStatus .processing :: mid ++ [Ev.setStatus .completed, Ev.setAnalyzed n] ∧
      (runAnalysisRoute
        (.ok [(⟨"r1", some ("this restaurant was absolutely fantastic"), some 5, false⟩ :
          DBReview)]) (fun _ => .failure) (fun _ => false)).1.success = true ∧
      (runAnalysisRoute
        (.ok [(⟨"r1", some ("this restaurant was absolutely fantastic"), some 5, false⟩ :
          DBReview)]) (fun _ => .failure) (fun _ => false)).1.httpStatus = 200 :=
  (C3_status_lifecycle ("https://maps.google.com/x") ⟨true, 3⟩
    [⟨"r1", some ("this restaurant was absolutely fantastic"), some 5, false⟩]
    (fun _ => .failure) (fun _ => false)).2.1 (by decide) (by decide)

/-- Counterexample to C3 as stated: an analysis run on a project whose only
review is already analyzed finishes without fatal error (success, HTTP 200,
`reviewCount` 0) yet performs no status update at all — it neither "first
sets the project status to processing" nor sets `completed`. -/
theorem C3_counterexample :
    (runAnalysisRoute
      (.ok [(⟨"r1", some ("this place was absolutely wonderful to visit"), some 5, true⟩ :
        DBReview)]) (fun _ => .failure) (fun _ => false)).2 = [] ∧
    (runAnalysisRoute
      (.ok [(⟨"r1", some ("this place was absolutely wonderful to visit"), some 5, true⟩ :
        DBReview)]) (fun _ => .failure) (fun _ => false)).1.success = true ∧
    (runAnalysisRoute
      (.ok [(⟨"r1", some ("this place was absolutely wonderful to visit"), some 5, true⟩ :
        DBReview)]) (fun _ => .failure) (fun _ => false)).1.reviewCount = some 0 :=
  ⟨rfl, rfl, rfl⟩

/-! ### Claim C9 -/

/-- Claim C9, amended.  Re-running analysis when every review is already
analyzed or every unanalyzed review is filter-dropped answers success with
`reviewCount: 0`, a `skipped` count, and the single lumped message `All N
reviews already analyzed or filtered out` (N = number of unanalyzed
reviews) — the response reports counts but uses one message for both
situations rather than distinguishing them (see the counterexample) — and
makes no LLM call and no store write (empty event list).  Moreover, on
every path, each id in any issued LLM window belongs to a review lacking
an analysis: only unanalyzed reviews are ever candidates. -/
theorem C9_rerun_no_llm (rs : List DBReview) (llm : String → LLMOutcome)
    (insertFails : String → Bool) :
    (¬ rs.length = 0 →
      (filterReviewsForAnalysis (rs.filter (fun r => !r.hasAnalysis))).length = 0 →
      runAnalysisRoute (.ok rs) llm insertFails =
        ({ httpStatus := 200, success := true
           message := some
             s!"All {(rs.filter (fun r => !r.hasAnalysis)).length} reviews already analyzed or filtered out"
           reviewCount := some 0
           skipped := some ((rs.filter (fun r => !r.hasAnalysis)).length -
             (filterReviewsForAnalysis (rs.filter (fun r => !r.hasAnalysis))).length)
           skippedCount := none, totalReviews := none, error := none }, [])) ∧
    (∀ ids, Ev.window ids ∈ (runAnalysisRoute (.ok rs) llm insertFails).2 →
      ∀ i ∈ ids, i ∈ (rs.filter (fun r => !r.hasAnalysis)).map DBReview.id) := by
  refine ⟨runAnalysisRoute_earlyReturn rs llm insertFails, ?_⟩
  intro ids hwin i hi
  by_cases hne : rs.length = 0
  · unfold runAnalysisRoute at hwin
    dsimp only at hwin
    rw [if_pos hne] at hwin
    simp at hwin
  by_cases hf : (filterReviewsForAnalysis (rs.filter (fun r => !r.hasAnalysis))).length = 0
  · rw [runAnalysisRoute_earlyReturn rs llm insertFails hne hf] at hwin
    simp at hwin
  · rw [runAnalysisRoute_main_eq rs llm insertFails hne hf] at hwin
    simp only [List.mem_cons, List.mem_append] at hwin
    rcases hwin with h | ((h | h) | h)
    · exact absurd h (by simp)
    · have hbt := liftBatchEv_window _ _ h
      have hW := expectedTrace_window_mem 500 _ _ hbt
      obtain ⟨chunk, hchunk, hids⟩ := List.mem_map.mp hW
      subst hids
      obtain ⟨rin, hrinmem, hrini⟩ := List.mem_map.mp hi
      have hrfa : rin ∈ reviewsForAnalysisOf rs :=
        chunksOf_mem_subset 10 (by norm_num) _ chunk hchunk rin hrinmem
      obtain ⟨r0, hr0, hr0e⟩ := List.mem_map.mp hrfa
      have hr0mem : r0 ∈ rs.filter (fun r => !r.hasAnalysis) := by
        rw [filterReviewsForAnalysis] at hr0
        exact List.mem_of_mem_filter hr0
      refine List.mem_map.mpr ⟨r0, hr0mem, ?_⟩
      rw [← hrini, ← hr0e]
    · exact absurd h (insertLoop_no_window _ _ _ _)
    · simp at h

/-- Witness for C9: the single unanalyzed review `"ok"` is filter-dropped,
so the route answers success, `reviewCount` 0, skipped 1, with no events. -/
theorem C9_witness :
    (let rs : List DBReview := [⟨"r2", some ("ok"), some 3, false⟩]
     runAnalysisRoute (.ok rs) (fun _ => .failure) (fun _ => false) =
      ({ httpStatus := 200, success := true
         message := some
           s!"All {(rs.filter fun r => !r.hasAnalysis).length} reviews already analyzed or filtered out"
         reviewCount := some 0
         skipped := some ((rs.filter fun r => !r.hasAnalysis).length -
           (filterReviewsForAnalysis (rs.filter fun r => !r.hasAnalysis)).length)
         skippedCount := none, totalReviews := none, error := none }, [])) :=
  (C9_rerun_no_llm [⟨"r2", some ("ok"), some 3, false⟩]
    (fun _ => .failure) (fun _ => false)).1 (by decide) (by decide)

/-- Counterexample to C9 as stated: the zero-candidate response does not
distinguish "already analyzed" from "filtered out" — a project with one
analyzed review plus one filtered-out review and a project with only the
filtered-out review produce bit-identical responses and event lists, while
their already-analyzed counts differ. -/
theorem C9_counterexample :
    runAnalysisRoute
      (.ok [(⟨"r1", some ("this restaurant was absolutely fantastic"), some 5, true⟩ :
        DBReview), ⟨"r2", some ("ok"), some 3, false⟩])
      (fun _ => .failure) (fun _ => false) =
    runAnalysisRoute (.ok [(⟨"r2", some ("ok"), some 3, false⟩ : DBReview)])
      (fun _ => .failure) (fun _ => false) ∧
    (([(⟨"r1", some ("this restaurant was absolutely fantastic"), some 5, true⟩ :
        DBReview), ⟨"r2", some ("ok"), some 3, false⟩]).filter
      (fun r => r.hasAnalysis)).length = 1 ∧
    (([(⟨"r2", some ("ok"), some 3, false⟩ : DBReview)]).filter
      (fun r => r.hasAnalysis)).length = 0 :=
  ⟨rfl, rfl, rfl⟩

end ReviewAnalyzer
